import Mathlib

/-!
# Unscented Kalman filter (`src/src/ukf.cpp`)

A shallow embedding of the filter of `ukf.cpp`.  The C++ `double`s are read as
elements of a linearly ordered field `K` (the rationals when a definition is
evaluated, the reals when a statement speaks of `π`, `sin` or `cos`), so that
every definition below is an executable function of its inputs.

The functions the file takes from `<cmath>` and from Eigen are not part of the
repository; they are the fields of `MathEnv`.
-/

open Matrix

namespace UKF

/-- The library functions `ukf.cpp` calls: `sqrt`, `cos`, `sin`, `atan2` and the
constant `M_PI` of `<cmath>`, and Eigen's `llt().matrixL()` on the 7×7
augmented covariance.  `M_PI` is positive. -/
structure MathEnv (K : Type) [LinearOrderedField K] where
  sqrt : K → K
  cos : K → K
  sin : K → K
  atan2 : K → K → K
  M_PI : K
  M_PI_pos : 0 < M_PI
  llt : Matrix (Fin 7) (Fin 7) K → Matrix (Fin 7) (Fin 7) K

/-- The tag `MeasurementPackage::SensorType`. -/
inductive SensorType where
  | LASER
  | RADAR
  deriving DecidableEq, Repr

/-- The record `MeasurementPackage`: `raw_measurements_` holds two entries for
a LASER package (px, py) and three for a RADAR package (range, bearing, range
rate); the embedding gives every package three slots and a LASER package never
reads the third. -/
structure MeasurementPackage (K : Type) where
  timestamp_ : Int
  sensor_type_ : SensorType
  raw_measurements_ : Fin 3 → K

end UKF

/-- The fields of class `UKF`.  The dimensions `n_x_ = 5` and `n_aug_ = 7` are
set once by the constructor and fix the shapes of the vectors and matrices
(`2 * n_aug_ + 1 = 15` sigma points). -/
structure UKF (K : Type) where
  is_initialized_ : Bool
  use_laser_ : Bool
  use_radar_ : Bool
  x_ : Fin 5 → K
  P_ : Matrix (Fin 5) (Fin 5) K
  Xsig_pred_ : Matrix (Fin 5) (Fin 15) K
  time_us_ : Int
  std_a_ : K
  std_yawdd_ : K
  std_laspx_ : K
  std_laspy_ : K
  std_radr_ : K
  std_radphi_ : K
  std_radrd_ : K
  weights_ : Fin 15 → K
  lambda_ : K
  NIS_radar_ : K
  NIS_laser_ : K

namespace UKF

variable {K : Type} [LinearOrderedField K]

/-- The constructor `UKF::UKF()` (lines 14-78).  `x_`, `P_`, `Xsig_pred_` and
`weights_` are allocated without being written, so their contents are
arguments. -/
def construct (x0 : Fin 5 → K) (P0 : Matrix (Fin 5) (Fin 5) K)
    (X0 : Matrix (Fin 5) (Fin 15) K) (w0 : Fin 15 → K) : UKF K where
  is_initialized_ := false
  use_laser_ := true
  use_radar_ := true
  x_ := x0
  P_ := P0
  Xsig_pred_ := X0
  time_us_ := 0
  std_a_ := 2
  std_yawdd_ := 2
  std_laspx_ := 0.15
  std_laspy_ := 0.15
  std_radr_ := 0.3
  std_radphi_ := 0.03
  std_radrd_ := 0.3
  weights_ := w0
  lambda_ := 3 - 5
  NIS_radar_ := 0
  NIS_laser_ := 0

/-- The accumulation loop `acc.fill(0.0); for (i = 0; i < n; i++) acc = acc + f(i);`. -/
def forSum {α : Type} [Zero α] [Add α] {n : Nat} (f : Fin n → α) : α :=
  (List.finRange n).foldl (fun acc i => acc + f i) 0

section AngleLoops

/-- The loop `while (d > M_PI) d -= 2. * M_PI;`. -/
def wrapDown [FloorRing K] (pi : K) (hpi : 0 < pi) (d : K) : K :=
  if d > pi then wrapDown pi hpi (d - 2 * pi) else d
termination_by (Int.ceil ((d - pi) / (2 * pi))).toNat
decreasing_by
  rename_i h
  have h2 : (0 : K) < 2 * pi := by linarith
  have hpos : 0 < (d - pi) / (2 * pi) := div_pos (by linarith) h2
  have he : (d - 2 * pi - pi) / (2 * pi) = (d - pi) / (2 * pi) - 1 := by
    field_simp
    ring
  rw [he, Int.ceil_sub_one]
  have h1 : 0 < Int.ceil ((d - pi) / (2 * pi)) := Int.ceil_pos.mpr hpos
  omega

/-- The loop `while (d < -M_PI) d += 2. * M_PI;`. -/
def wrapUp [FloorRing K] (pi : K) (hpi : 0 < pi) (d : K) : K :=
  if d < -pi then wrapUp pi hpi (d + 2 * pi) else d
termination_by (Int.ceil ((-pi - d) / (2 * pi))).toNat
decreasing_by
  rename_i h
  have h2 : (0 : K) < 2 * pi := by linarith
  have hpos : 0 < (-pi - d) / (2 * pi) := div_pos (by linarith) h2
  have he : (-pi - (d + 2 * pi)) / (2 * pi) = (-pi - d) / (2 * pi) - 1 := by
    field_simp
    ring
  rw [he, Int.ceil_sub_one]
  have h1 : 0 < Int.ceil ((-pi - d) / (2 * pi)) := Int.ceil_pos.mpr hpos
  omega

/-- The angle normalisation of lines 302-303 (and 456-457, 483-484, 490-491,
503-504): the two loops one after the other. -/
def normalizeAngle [FloorRing K] (m : MathEnv K) (d : K) : K :=
  wrapUp m.M_PI m.M_PI_pos (wrapDown m.M_PI m.M_PI_pos d)

end AngleLoops

/-- Lines 201-204: `x_aug.head(5) = x_; x_aug(5) = 0; x_aug(6) = 0;`. -/
def augmentedMean (s : UKF K) : Fin 7 → K :=
  fun r => if h : r.val < 5 then s.x_ ⟨r.val, h⟩ else 0

/-- Lines 207-210: `P_aug.fill(0.0); P_aug.topLeftCorner(5, 5) = P_;
P_aug(5, 5) = std_a_ * std_a_; P_aug(6, 6) = std_yawdd_ * std_yawdd_;`. -/
def augmentedCovariance (s : UKF K) : Matrix (Fin 7) (Fin 7) K :=
  fun r c =>
    if h : r.val < 5 ∧ c.val < 5 then s.P_ ⟨r.val, h.1⟩ ⟨c.val, h.2⟩
    else if r.val = 5 ∧ c.val = 5 then s.std_a_ * s.std_a_
    else if r.val = 6 ∧ c.val = 6 then s.std_yawdd_ * s.std_yawdd_
    else 0

/-- Lines 216-222: column 0 is `x_aug`, column `i + 1` is
`x_aug + sqrt(lambda_ + n_aug_) * L_.col(i)` and column `i + 1 + n_aug_` is
`x_aug - sqrt(lambda_ + n_aug_) * L_.col(i)`, for `i < 7`. -/
def augmentedSigmaPoints (m : MathEnv K) (lambda_ : K) (x_aug : Fin 7 → K)
    (L_ : Matrix (Fin 7) (Fin 7) K) : Matrix (Fin 7) (Fin 15) K :=
  fun r j =>
    if j.val = 0 then x_aug r
    else if h : j.val ≤ 7 then
      x_aug r + m.sqrt (lambda_ + 7) * L_ r ⟨j.val - 1, by omega⟩
    else
      x_aug r - m.sqrt (lambda_ + 7) * L_ r ⟨j.val - 8, by omega⟩

/-- The body of the loop of lines 226-270: one augmented sigma point through
the CTRV motion model, with its own noise components added. -/
def predictSigmaPoint (m : MathEnv K) (delta_t : K) (col : Fin 7 → K) : Fin 5 → K :=
  let p_x := col 0
  let p_y := col 1
  let v := col 2
  let yaw := col 3
  let yawd := col 4
  let nu_a := col 5
  let nu_yawdd := col 6
  let px_p :=
    if |yawd| > 0.001 then p_x + v / yawd * (m.sin (yaw + yawd * delta_t) - m.sin yaw)
    else p_x + v * delta_t * m.cos yaw
  let py_p :=
    if |yawd| > 0.001 then p_y + v / yawd * (m.cos yaw - m.cos (yaw + yawd * delta_t))
    else p_y + v * delta_t * m.sin yaw
  let v_p := v
  let yaw_p := yaw + yawd * delta_t
  let yawd_p := yawd
  let px_p := px_p + 0.5 * nu_a * delta_t * delta_t * m.cos yaw
  let py_p := py_p + 0.5 * nu_a * delta_t * delta_t * m.sin yaw
  let v_p := v_p + nu_a * delta_t
  let yaw_p := yaw_p + 0.5 * nu_yawdd * delta_t * delta_t
  let yawd_p := yawd_p + nu_yawdd * delta_t
  ![px_p, py_p, v_p, yaw_p, yawd_p]

/-- Lines 278-285: `weights_(0) = lambda_ / (lambda_ + n_aug_)` and
`weights_(i) = 0.5 / (n_aug_ + lambda_)` for `1 ≤ i < 15`. -/
def setWeights (lambda_ : K) : Fin 15 → K :=
  fun i => if i.val = 0 then lambda_ / (lambda_ + 7) else 0.5 / (7 + lambda_)

/-- Lines 288-292: the weighted sum of the columns of the predicted sigma
points. -/
def predictedMean (w : Fin 15 → K) (X : Matrix (Fin 5) (Fin 15) K) : Fin 5 → K :=
  forSum (fun i => w i • (fun r => X r i))

/-- Lines 299-303 (and 487-491): `x_diff = Xsig_pred_.col(i) - x_` with its
component 3 put through the angle normalisation. -/
def stateDiff [FloorRing K] (m : MathEnv K) (X : Matrix (Fin 5) (Fin 15) K)
    (x : Fin 5 → K) (i : Fin 15) : Fin 5 → K :=
  let x_diff : Fin 5 → K := fun r => X r i - x r
  Function.update x_diff 3 (normalizeAngle m (x_diff 3))

/-- Lines 295-306: the weighted sum of the outer products of the normalised
state differences. -/
def predictedCovariance [FloorRing K] (m : MathEnv K) (w : Fin 15 → K)
    (X : Matrix (Fin 5) (Fin 15) K) (x : Fin 5 → K) : Matrix (Fin 5) (Fin 5) K :=
  forSum (fun i => w i • vecMulVec (stateDiff m X x i) (stateDiff m X x i))

/-- The method `UKF::Prediction` (lines 168-308).  The matrix `Xsig` of lines
173-184 and the factor `A_` it is built from are written and never read; they
are left out. -/
def Prediction [FloorRing K] (m : MathEnv K) (s : UKF K) (delta_t : K) : UKF K :=
  let lambda_ : K := 3 - 7
  let x_aug := augmentedMean s
  let P_aug := augmentedCovariance s
  let L_ := m.llt P_aug
  let Xsig_aug := augmentedSigmaPoints m lambda_ x_aug L_
  let Xsig_pred : Matrix (Fin 5) (Fin 15) K :=
    fun r i => predictSigmaPoint m delta_t (fun k => Xsig_aug k i) r
  let weights := setWeights lambda_
  let x := predictedMean weights Xsig_pred
  let P := predictedCovariance m weights Xsig_pred x
  { s with lambda_ := lambda_, Xsig_pred_ := Xsig_pred, weights_ := weights, x_ := x, P_ := P }

/-- Modelled from the spec: Eigen's `inverse()` is not in the repository; the
spec's `measurement-covariance⁻¹` is the inverse over the field, the adjugate
divided by the determinant. -/
def inverse {n : Type} [Fintype n] [DecidableEq n] (S : Matrix n n K) : Matrix n n K :=
  (S.det)⁻¹ • S.adjugate

/-- The weighted mean of the columns of a sigma-point matrix in measurement
space (lines 340-346 and 438-444). -/
def measurementMean {k : Nat} (w : Fin 15 → K) (Zsig : Matrix (Fin k) (Fin 15) K) :
    Fin k → K :=
  forSum (fun i => w i • (fun r => Zsig r i))

/-- Lines 327-337: the lidar measurement model, the position rows of the
predicted sigma points. -/
def lidarSigmaPoints (X : Matrix (Fin 5) (Fin 15) K) : Matrix (Fin 2) (Fin 15) K :=
  fun r i => ![X 0 i, X 1 i] r

/-- Lines 349-364: the innovation covariance of the lidar update, the weighted
sum of outer products of the residuals plus the noise matrix `R`. -/
def lidarS (s : UKF K) (Zsig : Matrix (Fin 2) (Fin 15) K) (z_pred : Fin 2 → K) :
    Matrix (Fin 2) (Fin 2) K :=
  let S : Matrix (Fin 2) (Fin 2) K :=
    forSum (fun i =>
      let z_diff : Fin 2 → K := fun r => Zsig r i - z_pred r
      s.weights_ i • vecMulVec z_diff z_diff)
  let R : Matrix (Fin 2) (Fin 2) K :=
    !![s.std_laspx_ * s.std_laspx_, 0; 0, s.std_laspy_ * s.std_laspy_]
  S + R

/-- Lines 372-384: the cross correlation of the lidar update; the state
difference is used as it is. -/
def lidarTc (s : UKF K) (Zsig : Matrix (Fin 2) (Fin 15) K) (z_pred : Fin 2 → K) :
    Matrix (Fin 5) (Fin 2) K :=
  forSum (fun i =>
    let z_diff : Fin 2 → K := fun r => Zsig r i - z_pred r
    let x_diff : Fin 5 → K := fun r => s.Xsig_pred_ r i - s.x_ r
    s.weights_ i • vecMulVec x_diff z_diff)

/-- The method `UKF::UpdateLidar` (lines 314-399). -/
def UpdateLidar (s : UKF K) (meas_package : MeasurementPackage K) : UKF K :=
  let z : Fin 2 → K := ![meas_package.raw_measurements_ 0, meas_package.raw_measurements_ 1]
  let Zsig := lidarSigmaPoints s.Xsig_pred_
  let z_pred := measurementMean s.weights_ Zsig
  let S := lidarS s Zsig z_pred
  let Tc := lidarTc s Zsig z_pred
  let K_ := Tc * inverse S
  let z_diff : Fin 2 → K := z - z_pred
  { s with
    NIS_laser_ := (z_diff ᵥ* inverse S) ⬝ᵥ z_diff
    x_ := s.x_ + K_ *ᵥ z_diff
    P_ := s.P_ - K_ * S * K_ᵀ }

/-- The denominator of the range rate in line 434, `sqrt(p_x * p_x + p_y * p_y)`. -/
def rangeRateDenominator (m : MathEnv K) (p_x p_y : K) : K :=
  m.sqrt (p_x * p_x + p_y * p_y)

/-- The body of the loop of lines 417-435: one predicted sigma point in radar
measurement space (range, bearing, range rate). -/
def radarMeasurementModel (m : MathEnv K) (col : Fin 5 → K) : Fin 3 → K :=
  let p_x := col 0
  let p_y := col 1
  let v := col 2
  let yaw := col 3
  let v1 := m.cos yaw * v
  let v2 := m.sin yaw * v
  ![m.sqrt (p_x * p_x + p_y * p_y), m.atan2 p_y p_x,
    (p_x * v1 + p_y * v2) / rangeRateDenominator m p_x p_y]

/-- Lines 417-435: the radar measurement model on every column. -/
def radarSigmaPoints (m : MathEnv K) (X : Matrix (Fin 5) (Fin 15) K) :
    Matrix (Fin 3) (Fin 15) K :=
  fun r i => radarMeasurementModel m (fun k => X k i) r

/-- Lines 453-457 (and 481-484, 500-504): a residual in radar measurement
space with its bearing component put through the angle normalisation. -/
def radarResidual [FloorRing K] (m : MathEnv K) (a b : Fin 3 → K) : Fin 3 → K :=
  let z_diff : Fin 3 → K := a - b
  Function.update z_diff 1 (normalizeAngle m (z_diff 1))

/-- Lines 447-468: the innovation covariance of the radar update. -/
def radarS [FloorRing K] (m : MathEnv K) (s : UKF K) (Zsig : Matrix (Fin 3) (Fin 15) K)
    (z_pred : Fin 3 → K) : Matrix (Fin 3) (Fin 3) K :=
  let S : Matrix (Fin 3) (Fin 3) K :=
    forSum (fun i =>
      let z_diff := radarResidual m (fun r => Zsig r i) z_pred
      s.weights_ i • vecMulVec z_diff z_diff)
  let R : Matrix (Fin 3) (Fin 3) K :=
    !![s.std_radr_ * s.std_radr_, 0, 0;
       0, s.std_radphi_ * s.std_radphi_, 0;
       0, 0, s.std_radrd_ * s.std_radrd_]
  S + R

/-- Lines 476-494: the cross correlation of the radar update. -/
def radarTc [FloorRing K] (m : MathEnv K) (s : UKF K) (Zsig : Matrix (Fin 3) (Fin 15) K)
    (z_pred : Fin 3 → K) : Matrix (Fin 5) (Fin 3) K :=
  forSum (fun i =>
    let z_diff := radarResidual m (fun r => Zsig r i) z_pred
    let x_diff := stateDiff m s.Xsig_pred_ s.x_ i
    s.weights_ i • vecMulVec x_diff z_diff)

/-- The method `UKF::UpdateRadar` (lines 405-512). -/
def UpdateRadar [FloorRing K] (m : MathEnv K) (s : UKF K)
    (meas_package : MeasurementPackage K) : UKF K :=
  let z : Fin 3 → K := meas_package.raw_measurements_
  let Zsig := radarSigmaPoints m s.Xsig_pred_
  let z_pred := measurementMean s.weights_ Zsig
  let S := radarS m s Zsig z_pred
  let Tc := radarTc m s Zsig z_pred
  let K_ := Tc * inverse S
  let z_diff := radarResidual m z z_pred
  { s with
    NIS_radar_ := (z_diff ᵥ* inverse S) ⬝ᵥ z_diff
    x_ := s.x_ + K_ *ᵥ z_diff
    P_ := s.P_ - K_ * S * K_ᵀ }

/-- Lines 95-135 of `ProcessMeasurement`: the first accepted measurement seeds
the state and nothing else runs. -/
def firstMeasurement (m : MathEnv K) (s : UKF K) (meas_package : MeasurementPackage K) : UKF K :=
  let x : Fin 5 → K := ![1, 1, 1, 1, 0.1]
  let P : Matrix (Fin 5) (Fin 5) K :=
    !![0.15, 0, 0, 0, 0;
       0, 0.15, 0, 0, 0;
       0, 0, 1, 0, 0;
       0, 0, 0, 1, 0;
       0, 0, 0, 0, 1]
  let x :=
    if meas_package.sensor_type_ = SensorType.LASER ∧ s.use_laser_ = true then
      Function.update (Function.update x 0 (meas_package.raw_measurements_ 0)) 1
        (meas_package.raw_measurements_ 1)
    else if meas_package.sensor_type_ = SensorType.RADAR ∧ s.use_radar_ = true then
      let ro := meas_package.raw_measurements_ 0
      let phi := meas_package.raw_measurements_ 1
      Function.update (Function.update x 0 (ro * m.cos phi)) 1 (ro * m.sin phi)
    else x
  { s with x_ := x, P_ := P, time_us_ := meas_package.timestamp_, is_initialized_ := true }

/-- The method `UKF::ProcessMeasurement` (lines 89-160). -/
def ProcessMeasurement [FloorRing K] (m : MathEnv K) (s : UKF K)
    (meas_package : MeasurementPackage K) : UKF K :=
  if (meas_package.sensor_type_ = SensorType.RADAR ∧ s.use_radar_ = true) ∨
      (meas_package.sensor_type_ = SensorType.LASER ∧ s.use_laser_ = true) then
    if s.is_initialized_ = false then
      firstMeasurement m s meas_package
    else
      let dt : K := ((meas_package.timestamp_ - s.time_us_ : Int) : K) / 1000000.0
      let s := { s with time_us_ := meas_package.timestamp_ }
      let s := Prediction m s dt
      if meas_package.sensor_type_ = SensorType.LASER then UpdateLidar s meas_package
      else if meas_package.sensor_type_ = SensorType.RADAR then UpdateRadar m s meas_package
      else s
  else s

/-- A lower-triangular 7×7 matrix with positive diagonal: the identity on the
position and speed rows, `t` across the yaw row up to the diagonal, `1/2000` for
the yaw rate and `2` for the two noise components. -/
def skewFactor (t : K) : Matrix (Fin 7) (Fin 7) K :=
  fun r c =>
    if r.val = 3 ∧ c.val ≤ 3 then t
    else if r.val = c.val then (if r.val = 4 then 1 / 2000 else if r.val < 4 then 1 else 2)
    else 0

/-- An initialized filter with the constructor's noise parameters, mean
`(0, 0, 2, 0, 0)` and the covariance whose augmentation is
`skewFactor t * (skewFactor t)ᵀ`: the yaw is correlated with position and
speed. -/
def skewState (t : K) : UKF K :=
  { construct ![0, 0, 2, 0, 0]
      !![1, 0, 0, t, 0;
         0, 1, 0, t, 0;
         0, 0, 1, t, 0;
         t, t, t, 4 * (t * t), 0;
         0, 0, 0, 0, 1 / 4000000] 0 0 with
    is_initialized_ := true }

/-- The function `Tools::CalculateRMSE` (`tools.cpp`, lines 12-46).  The
result is the vector returned together with the text written to `cout`.  The
loop of lines 28-36 reads `estimations[i]` and `ground_truth[i]` for
`i < estimations.size()`; it runs only when the two sizes are equal, so it is
a fold over the paired entries.  The elementwise square root of Eigen is the
parameter `sqrt`. -/
def CalculateRMSE (sqrt : K → K) (estimations ground_truth : List (Fin 4 → K)) :
    (Fin 4 → K) × List String :=
  let rmse : Fin 4 → K := ![0, 0, 0, 0]
  if estimations.length ≠ ground_truth.length ∨ estimations.length = 0 then
    (rmse, ["estimations vector is zero and size not equal to ground truth"])
  else
    let rmse : Fin 4 → K :=
      (List.zip estimations ground_truth).foldl
        (fun acc p =>
          let residual : Fin 4 → K := p.1 - p.2
          let residual : Fin 4 → K := residual * residual
          acc + residual) rmse
    let rmse : Fin 4 → K := fun k => rmse k / (estimations.length : K)
    let rmse : Fin 4 → K := fun k => sqrt (rmse k)
    (rmse, [])

/-- The position that the curved branch of the motion model computes
(lines 243-244), before the noise terms are added. -/
def curvedPosition (m : MathEnv K) (p_x p_y v yaw yawd delta_t : K) : K × K :=
  (p_x + v / yawd * (m.sin (yaw + yawd * delta_t) - m.sin yaw),
    p_y + v / yawd * (m.cos yaw - m.cos (yaw + yawd * delta_t)))

/-- The position that the straight branch of the motion model computes
(lines 248-249), before the noise terms are added. -/
def straightPosition (m : MathEnv K) (p_x p_y v yaw delta_t : K) : K × K :=
  (p_x + v * delta_t * m.cos yaw, p_y + v * delta_t * m.sin yaw)

/-- Lines 349-357: the weighted sum of the outer products of the lidar
residuals, the matrix `S` before the noise matrix `R` is added. -/
def lidarSigmaCovariance (s : UKF K) (Zsig : Matrix (Fin 2) (Fin 15) K)
    (z_pred : Fin 2 → K) : Matrix (Fin 2) (Fin 2) K :=
  forSum (fun i =>
    let z_diff : Fin 2 → K := fun r => Zsig r i - z_pred r
    s.weights_ i • vecMulVec z_diff z_diff)

/-- The cross correlation of the lidar update as the specification words it:
the heading component of every state difference is put through the angle
normalisation before it enters the weighted sum, as the loops of `Prediction`
(lines 299-303) and `UpdateRadar` (lines 487-491) do.  It is compared with
`lidarTc`, the loop of `UpdateLidar` in the source. -/
def lidarTcWrapped [FloorRing K] (m : MathEnv K) (s : UKF K)
    (Zsig : Matrix (Fin 2) (Fin 15) K) (z_pred : Fin 2 → K) : Matrix (Fin 5) (Fin 2) K :=
  forSum (fun i =>
    let z_diff : Fin 2 → K := fun r => Zsig r i - z_pred r
    let x_diff := stateDiff m s.Xsig_pred_ s.x_ i
    s.weights_ i • vecMulVec x_diff z_diff)

end UKF

/-! ## Theorems -/

namespace UKF

variable {K : Type} [LinearOrderedField K]

/-- The accumulation loop computes the sum over all indices. -/
theorem forSum_eq_sum {α : Type} [AddCommMonoid α] {n : Nat} (f : Fin n → α) :
    forSum f = ∑ i, f i := by
  have key : ∀ (l : List (Fin n)) (a : α),
      l.foldl (fun acc i => acc + f i) a = a + (l.map f).sum := by
    intro l
    induction l with
    | nil => intro a; simp
    | cons b t ih => intro a; simp [ih, add_assoc]
  rw [forSum, key, zero_add, Fin.sum_univ_def]

/-- The covariance written by the first measurement is the diagonal prior. -/
theorem firstMeasurement_P (m : MathEnv K) (s : UKF K) (meas_package : MeasurementPackage K) :
    (firstMeasurement m s meas_package).P_ = Matrix.diagonal ![0.15, 0.15, 1, 1, 1] := by
  ext i j
  fin_cases i <;> fin_cases j <;> simp [firstMeasurement, Matrix.vecHead, Matrix.vecTail]

/-- An uninitialized filter that accepts the measurement runs the seeding
branch only. -/
theorem processMeasurement_uninitialized [FloorRing K] (m : MathEnv K) (s : UKF K)
    (meas_package : MeasurementPackage K) (hinit : s.is_initialized_ = false)
    (hen : (meas_package.sensor_type_ = SensorType.RADAR ∧ s.use_radar_ = true) ∨
      (meas_package.sensor_type_ = SensorType.LASER ∧ s.use_laser_ = true)) :
    ProcessMeasurement m s meas_package = firstMeasurement m s meas_package := by
  simp only [ProcessMeasurement, if_pos hen, hinit, if_true]

/-! ### C1 - C3: the first measurement and disabled modalities -/

/-- C1: an uninitialized filter with the laser modality enabled that receives a
LASER measurement `(px, py)` with timestamp `ts` ends with mean
`[px, py, 1, 1, 0.1]`, covariance `diag(0.15, 0.15, 1, 1, 1)`, `time_us_ = ts`
and `is_initialized_ = true`; no prediction or update runs: both NIS values,
`weights_`, `Xsig_pred_` and `lambda_` are the ones on entry. -/
theorem processMeasurement_first_laser [FloorRing K] (m : MathEnv K) (s : UKF K)
    (meas_package : MeasurementPackage K)
    (hinit : s.is_initialized_ = false) (hlaser : s.use_laser_ = true)
    (hty : meas_package.sensor_type_ = SensorType.LASER) :
    (ProcessMeasurement m s meas_package).x_ =
        ![meas_package.raw_measurements_ 0, meas_package.raw_measurements_ 1, 1, 1, 0.1] ∧
      (ProcessMeasurement m s meas_package).P_ = Matrix.diagonal ![0.15, 0.15, 1, 1, 1] ∧
      (ProcessMeasurement m s meas_package).time_us_ = meas_package.timestamp_ ∧
      (ProcessMeasurement m s meas_package).is_initialized_ = true ∧
      (ProcessMeasurement m s meas_package).NIS_laser_ = s.NIS_laser_ ∧
      (ProcessMeasurement m s meas_package).NIS_radar_ = s.NIS_radar_ ∧
      (ProcessMeasurement m s meas_package).weights_ = s.weights_ ∧
      (ProcessMeasurement m s meas_package).Xsig_pred_ = s.Xsig_pred_ ∧
      (ProcessMeasurement m s meas_package).lambda_ = s.lambda_ := by
  rw [processMeasurement_uninitialized m s meas_package hinit (Or.inr ⟨hty, hlaser⟩)]
  refine ⟨?_, firstMeasurement_P m s meas_package, rfl, rfl, rfl, rfl, rfl, rfl, rfl⟩
  funext i
  fin_cases i <;> simp [firstMeasurement, hlaser, hty, Function.update]

/-- C1 at the scenario of the specification: a freshly constructed filter over
the reals and the LASER measurement `(1, 2)` at `t = 0`. -/
theorem processMeasurement_first_laser_witness :
    (ProcessMeasurement
        (⟨Real.sqrt, Real.cos, Real.sin, fun y x => Complex.arg ⟨x, y⟩, Real.pi, Real.pi_pos,
          fun A => A⟩ : MathEnv ℝ)
        (construct 0 0 0 0) ⟨0, SensorType.LASER, ![1, 2, 0]⟩).x_ = ![1, 2, 1, 1, 0.1] ∧
      (ProcessMeasurement
        (⟨Real.sqrt, Real.cos, Real.sin, fun y x => Complex.arg ⟨x, y⟩, Real.pi, Real.pi_pos,
          fun A => A⟩ : MathEnv ℝ)
        (construct 0 0 0 0) ⟨0, SensorType.LASER, ![1, 2, 0]⟩).is_initialized_ = true := by
  have h := processMeasurement_first_laser
    (⟨Real.sqrt, Real.cos, Real.sin, fun y x => Complex.arg ⟨x, y⟩, Real.pi, Real.pi_pos,
      fun A => A⟩ : MathEnv ℝ)
    (construct 0 0 0 0) ⟨0, SensorType.LASER, ![1, 2, 0]⟩ rfl rfl rfl
  exact ⟨by simpa using h.1, h.2.2.2.1⟩

/-- C2: an uninitialized filter with the radar modality enabled that receives a
RADAR measurement `(range, bearing, rate)` ends with mean
`[range * cos bearing, range * sin bearing, 1, 1, 0.1]`; with `cos 0 = 1` and
`sin 0 = 0` the measurement `(5, 0, 0)` gives position `(5, 0)`. -/
theorem processMeasurement_first_radar [FloorRing K] (m : MathEnv K) (s : UKF K)
    (meas_package : MeasurementPackage K)
    (hinit : s.is_initialized_ = false) (hradar : s.use_radar_ = true)
    (hty : meas_package.sensor_type_ = SensorType.RADAR) :
    (ProcessMeasurement m s meas_package).x_ =
        ![meas_package.raw_measurements_ 0 * m.cos (meas_package.raw_measurements_ 1),
          meas_package.raw_measurements_ 0 * m.sin (meas_package.raw_measurements_ 1),
          1, 1, 0.1] ∧
      (m.cos 0 = 1 → m.sin 0 = 0 → meas_package.raw_measurements_ = ![5, 0, 0] →
        (ProcessMeasurement m s meas_package).x_ = ![5, 0, 1, 1, 0.1]) := by
  rw [processMeasurement_uninitialized m s meas_package hinit (Or.inl ⟨hty, hradar⟩)]
  have hx : (firstMeasurement m s meas_package).x_ =
      ![meas_package.raw_measurements_ 0 * m.cos (meas_package.raw_measurements_ 1),
        meas_package.raw_measurements_ 0 * m.sin (meas_package.raw_measurements_ 1),
        1, 1, 0.1] := by
    funext i
    fin_cases i <;> simp [firstMeasurement, hradar, hty, Function.update]
  refine ⟨hx, ?_⟩
  intro hc hs hraw
  rw [hx, hraw]
  simp [hc, hs]

/-- C2 at the scenario of the specification: over the reals, with the real
cosine and sine, the RADAR measurement `(5, 0, 0)` seeds position `(5, 0)`. -/
theorem processMeasurement_first_radar_witness :
    (ProcessMeasurement
        (⟨Real.sqrt, Real.cos, Real.sin, fun y x => Complex.arg ⟨x, y⟩, Real.pi, Real.pi_pos,
          fun A => A⟩ : MathEnv ℝ)
        (construct 0 0 0 0) ⟨0, SensorType.RADAR, ![5, 0, 0]⟩).x_ = ![5, 0, 1, 1, 0.1] :=
  (processMeasurement_first_radar
    (⟨Real.sqrt, Real.cos, Real.sin, fun y x => Complex.arg ⟨x, y⟩, Real.pi, Real.pi_pos,
      fun A => A⟩ : MathEnv ℝ)
    (construct 0 0 0 0) ⟨0, SensorType.RADAR, ![5, 0, 0]⟩ rfl rfl rfl).2
    Real.cos_zero Real.sin_zero rfl

/-- C3: a measurement whose modality is disabled (LASER with
`use_laser_ = false`, RADAR with `use_radar_ = false`) leaves the whole filter
state as it was, initialized or not. -/
theorem processMeasurement_disabled [FloorRing K] (m : MathEnv K) (s : UKF K)
    (meas_package : MeasurementPackage K)
    (hdis : (meas_package.sensor_type_ = SensorType.LASER ∧ s.use_laser_ = false) ∨
      (meas_package.sensor_type_ = SensorType.RADAR ∧ s.use_radar_ = false)) :
    ProcessMeasurement m s meas_package = s := by
  unfold ProcessMeasurement
  rw [if_neg]
  rcases hdis with ⟨hty, hu⟩ | ⟨hty, hu⟩ <;> simp [hty, hu]

/-- C3 on an initialized filter over the reals with the laser switched off. -/
theorem processMeasurement_disabled_witness :
    ProcessMeasurement
        (⟨Real.sqrt, Real.cos, Real.sin, fun y x => Complex.arg ⟨x, y⟩, Real.pi, Real.pi_pos,
          fun A => A⟩ : MathEnv ℝ)
        { (construct 0 1 0 0 : UKF ℝ) with use_laser_ := false, is_initialized_ := true }
        ⟨7, SensorType.LASER, ![1, 2, 0]⟩ =
      { (construct 0 1 0 0 : UKF ℝ) with use_laser_ := false, is_initialized_ := true } :=
  processMeasurement_disabled _ _ _ (Or.inl ⟨rfl, rfl⟩)

/-! ### C6: prediction over a zero time step -/

/-- With `delta_t = 0` the motion model returns the first five components of
its argument, whichever branch is taken. -/
theorem predictSigmaPoint_zero (m : MathEnv K) (col : Fin 7 → K) :
    predictSigmaPoint m 0 col = ![col 0, col 1, col 2, col 3, col 4] := by
  unfold predictSigmaPoint
  by_cases h : |col 4| > 0.001
  · simp [h]
  · simp [h]

/-- Entry `r` of the weighted mean of sigma points. -/
theorem predictedMean_apply (w : Fin 15 → K) (X : Matrix (Fin 5) (Fin 15) K) (r : Fin 5) :
    predictedMean w X r = ∑ i, w i * X r i := by
  unfold predictedMean
  rw [forSum_eq_sum, Finset.sum_apply]
  rfl

/-- The sigma points cached by `Prediction`. -/
theorem prediction_Xsig_pred [FloorRing K] (m : MathEnv K) (s : UKF K) (delta_t : K) :
    (Prediction m s delta_t).Xsig_pred_ = fun r i =>
      predictSigmaPoint m delta_t
        (fun k => augmentedSigmaPoints m (3 - 7) (augmentedMean s)
          (m.llt (augmentedCovariance s)) k i) r := rfl

/-- The mean written by `Prediction`. -/
theorem prediction_x [FloorRing K] (m : MathEnv K) (s : UKF K) (delta_t : K) :
    (Prediction m s delta_t).x_ =
      predictedMean (setWeights (3 - 7)) (Prediction m s delta_t).Xsig_pred_ := rfl

/-- The covariance written by `Prediction`. -/
theorem prediction_P [FloorRing K] (m : MathEnv K) (s : UKF K) (delta_t : K) :
    (Prediction m s delta_t).P_ =
      predictedCovariance m (setWeights (3 - 7)) (Prediction m s delta_t).Xsig_pred_
        (Prediction m s delta_t).x_ := rfl

/-- With `delta_t = 0` the cached sigma points are the first five rows of the
augmented sigma points. -/
theorem prediction_zero_Xsig_pred [FloorRing K] (m : MathEnv K) (s : UKF K) (r : Fin 5)
    (i : Fin 15) :
    (Prediction m s 0).Xsig_pred_ r i =
      augmentedSigmaPoints m (3 - 7) (augmentedMean s) (m.llt (augmentedCovariance s))
        (Fin.castLE (by norm_num) r) i := by
  simp only [prediction_Xsig_pred, predictSigmaPoint_zero]
  fin_cases r <;> rfl

/-- With `delta_t = 0` the weighted mean of the sigma points is the mean on
entry. -/
theorem prediction_zero_x [FloorRing K] (m : MathEnv K) (s : UKF K) :
    (Prediction m s 0).x_ = s.x_ := by
  funext r
  rw [prediction_x, predictedMean_apply]
  simp only [prediction_zero_Xsig_pred]
  have ha : augmentedMean s (Fin.castLE (by norm_num) r) = s.x_ r := by
    have : (Fin.castLE (by norm_num : 5 ≤ 7) r).val < 5 := r.isLt
    simp [augmentedMean, this]
  simp only [Fin.sum_univ_succ, setWeights, augmentedSigmaPoints, ha]
  simp
  ring

/-- C6: `Prediction(0)` leaves the mean unchanged, for every state and every
factor `L` returned for the augmented covariance: with `delta_t = 0` the motion
model maps every sigma point to its own first five components (in both
branches), so the cached sigma points are the first five rows of the augmented
ones, and the weighted sum of the fifteen columns is `x_` in all five
components. -/
theorem prediction_zero_dt_mean [FloorRing K] (m : MathEnv K) (s : UKF K) :
    (∀ col : Fin 7 → K,
        predictSigmaPoint m 0 col = ![col 0, col 1, col 2, col 3, col 4]) ∧
      (∀ (r : Fin 5) (i : Fin 15),
        (Prediction m s 0).Xsig_pred_ r i =
          augmentedSigmaPoints m (3 - 7) (augmentedMean s) (m.llt (augmentedCovariance s))
            (Fin.castLE (by norm_num) r) i) ∧
      (Prediction m s 0).x_ = s.x_ :=
  ⟨predictSigmaPoint_zero m, prediction_zero_Xsig_pred m s, prediction_zero_x m s⟩

/-! ### C7: the weights -/

/-- C7: after every call of `Prediction`, whatever `lambda_` and `weights_`
held on entry, `lambda_ = 3 - 7`, the fifteen weights are
`weights_(0) = lambda_ / (lambda_ + 7) = -4/3` and
`weights_(i) = 1 / (2 (lambda_ + 7)) = 1/6` for `i = 1..14`, and they sum to
exactly 1 (as a sum and through the accumulation loop). -/
theorem prediction_weights [FloorRing K] (m : MathEnv K) (s : UKF K) (delta_t : K) :
    (Prediction m s delta_t).lambda_ = 3 - 7 ∧
      (Prediction m s delta_t).weights_ 0 =
        (Prediction m s delta_t).lambda_ / ((Prediction m s delta_t).lambda_ + 7) ∧
      (Prediction m s delta_t).weights_ 0 = -4 / 3 ∧
      (∀ i : Fin 15, i ≠ 0 →
        (Prediction m s delta_t).weights_ i =
            1 / (2 * ((Prediction m s delta_t).lambda_ + 7)) ∧
          (Prediction m s delta_t).weights_ i = 1 / 6) ∧
      ∑ i, (Prediction m s delta_t).weights_ i = 1 ∧
      forSum (Prediction m s delta_t).weights_ = 1 := by
  have hw : (Prediction m s delta_t).weights_ = setWeights (3 - 7) := rfl
  have hl : (Prediction m s delta_t).lambda_ = 3 - 7 := rfl
  have hsum : ∑ i, (Prediction m s delta_t).weights_ i = 1 := by
    rw [hw]
    simp only [Fin.sum_univ_succ, setWeights]
    simp
    norm_num
  refine ⟨hl, ?_, ?_, ?_, hsum, ?_⟩
  · rw [hw, hl]; simp [setWeights]
  · rw [hw]; simp [setWeights]; norm_num
  · intro i hi
    have hi0 : i.val ≠ 0 := fun h => hi (Fin.ext h)
    rw [hw, hl]
    simp only [setWeights, if_neg hi0]
    constructor <;> norm_num
  · rw [forSum_eq_sum]; exact hsum

/-! ### C4: symmetry of the covariance -/

/-- The outer product of a vector with itself is symmetric. -/
theorem vecMulVec_self_isSymm {n : Type} (v : n → K) : (vecMulVec v v).IsSymm := by
  ext i j
  simp [vecMulVec, mul_comm]

/-- A weighted sum of outer products of vectors with themselves is symmetric. -/
theorem forSum_outer_isSymm {k n : Nat} (w : Fin n → K) (d : Fin n → Fin k → K) :
    (forSum (fun i => w i • vecMulVec (d i) (d i))).IsSymm := by
  rw [forSum_eq_sum]
  unfold Matrix.IsSymm
  rw [Matrix.transpose_sum]
  refine Finset.sum_congr rfl (fun i _ => ?_)
  rw [Matrix.transpose_smul, (vecMulVec_self_isSymm (d i)).eq]

/-- The covariance recomputed by the prediction loop is symmetric. -/
theorem predictedCovariance_isSymm [FloorRing K] (m : MathEnv K) (w : Fin 15 → K)
    (X : Matrix (Fin 5) (Fin 15) K) (x : Fin 5 → K) :
    (predictedCovariance m w X x).IsSymm :=
  forSum_outer_isSymm w (fun i => stateDiff m X x i)

/-- The innovation covariance of the lidar update is symmetric. -/
theorem lidarS_isSymm (s : UKF K) (Zsig : Matrix (Fin 2) (Fin 15) K) (z_pred : Fin 2 → K) :
    (lidarS s Zsig z_pred).IsSymm := by
  unfold lidarS
  refine Matrix.IsSymm.add (forSum_outer_isSymm s.weights_ (fun i r => Zsig r i - z_pred r)) ?_
  ext i j
  fin_cases i <;> fin_cases j <;> simp [Matrix.vecHead, Matrix.vecTail]

/-- The innovation covariance of the radar update is symmetric. -/
theorem radarS_isSymm [FloorRing K] (m : MathEnv K) (s : UKF K)
    (Zsig : Matrix (Fin 3) (Fin 15) K) (z_pred : Fin 3 → K) :
    (radarS m s Zsig z_pred).IsSymm := by
  unfold radarS
  refine Matrix.IsSymm.add
    (forSum_outer_isSymm s.weights_ (fun i => radarResidual m (fun r => Zsig r i) z_pred)) ?_
  ext i j
  fin_cases i <;> fin_cases j <;> simp [Matrix.vecHead, Matrix.vecTail]

/-- The covariance update `P - K S Kᵀ` keeps a symmetric `P` symmetric when
`S` is symmetric. -/
theorem covarianceUpdate_isSymm {k : Nat} (P : Matrix (Fin 5) (Fin 5) K)
    (G : Matrix (Fin 5) (Fin k) K) (S : Matrix (Fin k) (Fin k) K)
    (hP : P.IsSymm) (hS : S.IsSymm) : (P - G * S * Gᵀ).IsSymm := by
  refine Matrix.IsSymm.sub hP ?_
  unfold Matrix.IsSymm
  rw [Matrix.transpose_mul, Matrix.transpose_mul, Matrix.transpose_transpose, hS.eq,
    Matrix.mul_assoc]

/-- The lidar update keeps the covariance symmetric. -/
theorem updateLidar_isSymm (s : UKF K) (meas_package : MeasurementPackage K)
    (hP : s.P_.IsSymm) : (UpdateLidar s meas_package).P_.IsSymm :=
  covarianceUpdate_isSymm _ _ _ hP (lidarS_isSymm _ _ _)

/-- The radar update keeps the covariance symmetric. -/
theorem updateRadar_isSymm [FloorRing K] (m : MathEnv K) (s : UKF K)
    (meas_package : MeasurementPackage K) (hP : s.P_.IsSymm) :
    (UpdateRadar m s meas_package).P_.IsSymm :=
  covarianceUpdate_isSymm _ _ _ hP (radarS_isSymm _ _ _ _)

/-- One call of `ProcessMeasurement` keeps "initialized implies symmetric
covariance". -/
theorem processMeasurement_keeps_symm [FloorRing K] (m : MathEnv K) (s : UKF K)
    (meas_package : MeasurementPackage K)
    (h : s.is_initialized_ = true → s.P_.IsSymm) :
    (ProcessMeasurement m s meas_package).is_initialized_ = true →
      (ProcessMeasurement m s meas_package).P_.IsSymm := by
  unfold ProcessMeasurement
  split_ifs with hen hinit hl hr
  · intro _
    rw [firstMeasurement_P]
    exact Matrix.isSymm_diagonal _
  · intro _
    exact updateLidar_isSymm _ _ (predictedCovariance_isSymm _ _ _ _)
  · intro _
    exact updateRadar_isSymm _ _ _ (predictedCovariance_isSymm _ _ _ _)
  · intro _
    exact predictedCovariance_isSymm _ _ _ _
  · exact h

/-- C4: covariance symmetry is kept by every operation.  The covariance
written by `Prediction` is symmetric for every state; `UpdateLidar` and
`UpdateRadar` (`P - K S Kᵀ`) keep a symmetric covariance symmetric; hence,
starting from an uninitialized filter, after any sequence of
`ProcessMeasurement` calls the covariance of an initialized filter is
symmetric. -/
theorem covariance_symmetric [FloorRing K] (m : MathEnv K) :
    (∀ (s : UKF K) (delta_t : K), (Prediction m s delta_t).P_.IsSymm) ∧
      (∀ (s : UKF K) (meas_package : MeasurementPackage K),
        s.P_.IsSymm → (UpdateLidar s meas_package).P_.IsSymm) ∧
      (∀ (s : UKF K) (meas_package : MeasurementPackage K),
        s.P_.IsSymm → (UpdateRadar m s meas_package).P_.IsSymm) ∧
      (∀ (s : UKF K) (l : List (MeasurementPackage K)),
        s.is_initialized_ = false →
        (l.foldl (ProcessMeasurement m) s).is_initialized_ = true →
        (l.foldl (ProcessMeasurement m) s).P_.IsSymm) := by
  refine ⟨fun s dt => predictedCovariance_isSymm _ _ _ _, updateLidar_isSymm,
    updateRadar_isSymm m, ?_⟩
  intro s l hs
  have key : ∀ (l : List (MeasurementPackage K)) (s : UKF K),
      (s.is_initialized_ = true → s.P_.IsSymm) →
      (l.foldl (ProcessMeasurement m) s).is_initialized_ = true →
      (l.foldl (ProcessMeasurement m) s).P_.IsSymm := by
    intro l
    induction l with
    | nil => intro s h; exact h
    | cons a t ih =>
      intro s h
      exact ih _ (processMeasurement_keeps_symm m s a h)
  exact key l s (fun h => by rw [hs] at h; cases h)

/-! ### The angle normalisation (C10) -/

/-- The first loop leaves a value that is at most `pi`, above `-pi` when the
loop ran, and that differs from the input by a multiple of `2 pi`. -/
theorem wrapDown_spec [FloorRing K] (pi : K) (hpi : 0 < pi) (d : K) :
    wrapDown pi hpi d ≤ pi ∧ (d ≤ pi → wrapDown pi hpi d = d) ∧
      (pi < d → -pi < wrapDown pi hpi d) ∧
      ∃ k : ℕ, wrapDown pi hpi d = d - k * (2 * pi) := by
  induction d using wrapDown.induct pi hpi with
  | case1 d h ih =>
    rw [wrapDown, if_pos h]
    obtain ⟨h1, h2, h3, k, hk⟩ := ih
    refine ⟨h1, fun hd => absurd h (not_lt.mpr hd), fun _ => ?_, k + 1, ?_⟩
    · rcases le_or_lt (d - 2 * pi) pi with hle | hlt
      · rw [h2 hle]; linarith
      · exact h3 hlt
    · rw [hk]; push_cast; ring
  | case2 d h =>
    rw [wrapDown, if_neg h]
    exact ⟨not_lt.mp h, fun _ => rfl, fun hd => absurd hd h, 0, by simp⟩

/-- The second loop leaves a value that is at least `-pi`, below `pi` when the
loop ran, and that differs from the input by a multiple of `2 pi`. -/
theorem wrapUp_spec [FloorRing K] (pi : K) (hpi : 0 < pi) (d : K) :
    -pi ≤ wrapUp pi hpi d ∧ (-pi ≤ d → wrapUp pi hpi d = d) ∧
      (d < -pi → wrapUp pi hpi d < pi) ∧
      ∃ k : ℕ, wrapUp pi hpi d = d + k * (2 * pi) := by
  induction d using wrapUp.induct pi hpi with
  | case1 d h ih =>
    rw [wrapUp, if_pos h]
    obtain ⟨h1, h2, h3, k, hk⟩ := ih
    refine ⟨h1, fun hd => absurd h (not_lt.mpr hd), fun _ => ?_, k + 1, ?_⟩
    · rcases le_or_lt (-pi) (d + 2 * pi) with hle | hlt
      · rw [h2 hle]; linarith
      · exact h3 hlt
    · rw [hk]; push_cast; ring
  | case2 d h =>
    rw [wrapUp, if_neg h]
    exact ⟨not_lt.mp h, fun _ => rfl, fun hd => absurd hd h, 0, by simp⟩

/-- C10 as amended: the angle normalisation (the two loops, a total function
for every input since `M_PI > 0`) returns a value in the closed interval
`[-π, π]` that differs from `d` by an integer multiple of `2π`; the end point
`-π` is returned only for `d = -π - 2πn` with `n` a natural number. -/
theorem normalizeAngle_range [FloorRing K] (m : MathEnv K) (d : K) :
    -m.M_PI ≤ normalizeAngle m d ∧ normalizeAngle m d ≤ m.M_PI ∧
      (∃ k : ℤ, normalizeAngle m d = d + k * (2 * m.M_PI)) ∧
      (normalizeAngle m d = -m.M_PI → ∃ n : ℕ, d = -m.M_PI - n * (2 * m.M_PI)) := by
  unfold normalizeAngle
  obtain ⟨hd1, hd2, hd3, kd, hkd⟩ := wrapDown_spec m.M_PI m.M_PI_pos d
  obtain ⟨hu1, hu2, hu3, ku, hku⟩ :=
    wrapUp_spec m.M_PI m.M_PI_pos (wrapDown m.M_PI m.M_PI_pos d)
  have hpi := m.M_PI_pos
  refine ⟨hu1, ?_, ⟨(ku : ℤ) - kd, ?_⟩, ?_⟩
  · rcases le_or_lt (-m.M_PI) (wrapDown m.M_PI m.M_PI_pos d) with hle | hlt
    · rw [hu2 hle]; exact hd1
    · exact (hu3 hlt).le
  · rw [hku, hkd]; push_cast; ring
  · intro heq
    rcases le_or_lt d m.M_PI with hle | hlt
    · rw [hd2 hle] at hku heq
      refine ⟨ku, ?_⟩
      rw [hku] at heq
      linarith
    · have h3 := hd3 hlt
      rw [hu2 h3.le] at heq
      rw [heq] at h3
      exact absurd h3 (lt_irrefl _)

/-- C10 fails at `d = -π`: neither loop runs (`-π > π` and `-π < -π` are both
false), the value returned is `-π`, which is not in `(-π, π]`. -/
theorem normalizeAngle_minus_pi :
    normalizeAngle
        (⟨Real.sqrt, Real.cos, Real.sin, fun y x => Complex.arg ⟨x, y⟩, Real.pi, Real.pi_pos,
          fun A => A⟩ : MathEnv ℝ) (-Real.pi) = -Real.pi ∧
      ¬ (-Real.pi <
        normalizeAngle
          (⟨Real.sqrt, Real.cos, Real.sin, fun y x => Complex.arg ⟨x, y⟩, Real.pi, Real.pi_pos,
            fun A => A⟩ : MathEnv ℝ) (-Real.pi)) := by
  have h : normalizeAngle
        (⟨Real.sqrt, Real.cos, Real.sin, fun y x => Complex.arg ⟨x, y⟩, Real.pi, Real.pi_pos,
          fun A => A⟩ : MathEnv ℝ) (-Real.pi) = -Real.pi := by
    unfold normalizeAngle
    have hpi := Real.pi_pos
    rw [(wrapDown_spec Real.pi Real.pi_pos (-Real.pi)).2.1 (by linarith),
      (wrapUp_spec Real.pi Real.pi_pos (-Real.pi)).2.1 le_rfl]
  exact ⟨h, by rw [h]; exact lt_irrefl _⟩

/-! ### C8 and C9: missing guards -/

/-- The augmented covariance of a symmetric covariance is symmetric. -/
theorem augmentedCovariance_isSymm (s : UKF K) (h : s.P_.IsSymm) :
    (augmentedCovariance s).IsSymm := by
  ext r c
  simp only [Matrix.transpose_apply, augmentedCovariance]
  by_cases h1 : c.val < 5 ∧ r.val < 5
  · rw [dif_pos h1, dif_pos ⟨h1.2, h1.1⟩]
    exact h.apply _ _
  · have h2 : ¬ (r.val < 5 ∧ c.val < 5) := fun h' => h1 ⟨h'.2, h'.1⟩
    rw [dif_neg h1, dif_neg h2]
    by_cases h3 : c.val = 5 ∧ r.val = 5
    · rw [if_pos h3, if_pos ⟨h3.2, h3.1⟩]
    · have h4 : ¬ (r.val = 5 ∧ c.val = 5) := fun h' => h3 ⟨h'.2, h'.1⟩
      rw [if_neg h3, if_neg h4]
      by_cases h5 : c.val = 6 ∧ r.val = 6
      · rw [if_pos h5, if_pos ⟨h5.2, h5.1⟩]
      · have h6 : ¬ (r.val = 6 ∧ c.val = 6) := fun h' => h5 ⟨h'.2, h'.1⟩
        rw [if_neg h5, if_neg h6]

/-- C8 fails: the state with mean `(1, 0, 0, 0, 0)` and zero covariance has a
symmetric augmented covariance that is not positive definite (its quadratic
form vanishes at the first unit vector), and whatever matrix the factorization
hands back, `Prediction(1)` overwrites the cached sigma points: entry `(0, 0)`
goes from 0 to 1. -/
theorem prediction_overwrites_without_factor :
    (augmentedCovariance (construct ![1, 0, 0, 0, 0] 0 0 0 : UKF ℝ)).IsSymm ∧
      Pi.single 0 1 ⬝ᵥ
          (augmentedCovariance (construct ![1, 0, 0, 0, 0] 0 0 0 : UKF ℝ) *ᵥ Pi.single 0 1) = 0 ∧
      ¬ ∃ llt : Matrix (Fin 7) (Fin 7) ℝ → Matrix (Fin 7) (Fin 7) ℝ,
        (Prediction
            (⟨Real.sqrt, Real.cos, Real.sin, fun y x => Complex.arg ⟨x, y⟩, Real.pi,
              Real.pi_pos, llt⟩ : MathEnv ℝ)
            (construct ![1, 0, 0, 0, 0] 0 0 0) 1).Xsig_pred_ =
          (construct ![1, 0, 0, 0, 0] 0 0 0 : UKF ℝ).Xsig_pred_ := by
  refine ⟨?_, ?_, ?_⟩
  · exact augmentedCovariance_isSymm _ (by simp [construct, Matrix.IsSymm])
  · rw [Matrix.mulVec_single, single_dotProduct]
    simp [augmentedCovariance, construct]
  · rintro ⟨llt, h⟩
    have h00 := congrFun (congrFun h 0) 0
    rw [prediction_Xsig_pred] at h00
    have e0 : augmentedMean (construct ![1, 0, 0, 0, 0] 0 0 0 : UKF ℝ) 0 = 1 := rfl
    have e2 : augmentedMean (construct ![1, 0, 0, 0, 0] 0 0 0 : UKF ℝ) 2 = 0 := rfl
    have e3 : augmentedMean (construct ![1, 0, 0, 0, 0] 0 0 0 : UKF ℝ) 3 = 0 := rfl
    have e4 : augmentedMean (construct ![1, 0, 0, 0, 0] 0 0 0 : UKF ℝ) 4 = 0 := rfl
    have e5 : augmentedMean (construct ![1, 0, 0, 0, 0] 0 0 0 : UKF ℝ) 5 = 0 := rfl
    have eX : (construct ![1, 0, 0, 0, 0] 0 0 0 : UKF ℝ).Xsig_pred_ 0 0 = 0 := rfl
    simp [predictSigmaPoint, augmentedSigmaPoints, e0, e2, e3, e4, e5, eX] at h00

/-- C8 as amended: `Prediction` has no failure path.  For every state, with a
positive-definite augmented covariance or not, it returns with the cached sigma
points overwritten by the propagated augmented sigma points built from whatever
factor `llt` returned (column 0 is the propagated mean), the mean overwritten
by their weighted sum and the covariance by the weighted covariance; the
initialization flag, the timestamp and both NIS values are left as they were. -/
theorem prediction_total [FloorRing K] (m : MathEnv K) (s : UKF K) (delta_t : K) :
    (Prediction m s delta_t).Xsig_pred_ =
        (fun r i => predictSigmaPoint m delta_t
          (fun k => augmentedSigmaPoints m (3 - 7) (augmentedMean s)
            (m.llt (augmentedCovariance s)) k i) r) ∧
      (∀ r, (Prediction m s delta_t).Xsig_pred_ r 0 =
        predictSigmaPoint m delta_t (augmentedMean s) r) ∧
      (∀ r, (Prediction m s delta_t).x_ r =
        ∑ i, (Prediction m s delta_t).weights_ i * (Prediction m s delta_t).Xsig_pred_ r i) ∧
      (Prediction m s delta_t).P_ =
        predictedCovariance m (Prediction m s delta_t).weights_
          (Prediction m s delta_t).Xsig_pred_ (Prediction m s delta_t).x_ ∧
      (Prediction m s delta_t).is_initialized_ = s.is_initialized_ ∧
      (Prediction m s delta_t).time_us_ = s.time_us_ ∧
      (Prediction m s delta_t).NIS_laser_ = s.NIS_laser_ ∧
      (Prediction m s delta_t).NIS_radar_ = s.NIS_radar_ := by
  refine ⟨rfl, fun r => ?_, fun r => ?_, rfl, rfl, rfl, rfl, rfl⟩
  · rw [prediction_Xsig_pred]
    simp [augmentedSigmaPoints]
  · rw [prediction_x, predictedMean_apply]
    rfl

/-- C9 fails: at `p_x = p_y = 0` the denominator of the range rate is
`sqrt(0) = 0`, so no positive floor bounds it from below. -/
theorem rangeRateDenominator_origin :
    rangeRateDenominator
        (⟨Real.sqrt, Real.cos, Real.sin, fun y x => Complex.arg ⟨x, y⟩, Real.pi, Real.pi_pos,
          fun A => A⟩ : MathEnv ℝ) 0 0 = 0 ∧
      ¬ ∃ ε : ℝ, 0 < ε ∧ ∀ p_x p_y : ℝ, ε ≤
        rangeRateDenominator
          (⟨Real.sqrt, Real.cos, Real.sin, fun y x => Complex.arg ⟨x, y⟩, Real.pi, Real.pi_pos,
            fun A => A⟩ : MathEnv ℝ) p_x p_y := by
  have h0 : rangeRateDenominator
        (⟨Real.sqrt, Real.cos, Real.sin, fun y x => Complex.arg ⟨x, y⟩, Real.pi, Real.pi_pos,
          fun A => A⟩ : MathEnv ℝ) 0 0 = 0 := by
    simp [rangeRateDenominator]
  refine ⟨h0, ?_⟩
  rintro ⟨ε, hε, h⟩
  have := h 0 0
  rw [h0] at this
  linarith

/-- C9 as amended: for every predicted sigma-point matrix and every column the
range-rate component is `(p_x v cos yaw + p_y v sin yaw)` divided by
`sqrt(p_x² + p_y²)` itself, the very value stored as the range component, with
no floor; with a square root that vanishes exactly on non-positive arguments
the denominator is zero exactly when `p_x = p_y = 0`. -/
theorem radar_rangeRate_denominator (m : MathEnv K) (X : Matrix (Fin 5) (Fin 15) K)
    (i : Fin 15) :
    radarSigmaPoints m X 2 i =
        (X 0 i * (m.cos (X 3 i) * X 2 i) + X 1 i * (m.sin (X 3 i) * X 2 i)) /
          rangeRateDenominator m (X 0 i) (X 1 i) ∧
      rangeRateDenominator m (X 0 i) (X 1 i) = m.sqrt (X 0 i * X 0 i + X 1 i * X 1 i) ∧
      rangeRateDenominator m (X 0 i) (X 1 i) = radarSigmaPoints m X 0 i ∧
      ((∀ x : K, m.sqrt x = 0 ↔ x ≤ 0) →
        (rangeRateDenominator m (X 0 i) (X 1 i) = 0 ↔ X 0 i = 0 ∧ X 1 i = 0)) := by
  refine ⟨by simp [radarSigmaPoints, radarMeasurementModel], rfl,
    by simp [radarSigmaPoints, radarMeasurementModel, rangeRateDenominator], ?_⟩
  intro hs
  rw [rangeRateDenominator, hs]
  constructor
  · intro h
    have h0 := mul_self_nonneg (X 0 i)
    have h1 := mul_self_nonneg (X 1 i)
    exact ⟨mul_self_eq_zero.mp (by linarith), mul_self_eq_zero.mp (by linarith)⟩
  · rintro ⟨h0, h1⟩
    simp [h0, h1]

/-! ### C5: positive semidefiniteness of the predicted covariance -/

/-- A sum over the fifteen sigma points, written out. -/
theorem sum_univ_fifteen {α : Type} [AddCommMonoid α] (f : Fin 15 → α) :
    ∑ i, f i = f 0 + f 1 + f 2 + f 3 + f 4 + f 5 + f 6 + f 7 + f 8 + f 9 + f 10 + f 11 +
      f 12 + f 13 + f 14 := by
  rw [Fin.sum_univ_castSucc, Fin.sum_univ_castSucc, Fin.sum_univ_castSucc,
    Fin.sum_univ_castSucc, Fin.sum_univ_castSucc, Fin.sum_univ_castSucc,
    Fin.sum_univ_castSucc, Fin.sum_univ_eight]
  rfl

/-- An entry of the predicted covariance as a weighted sum of products of
state differences. -/
theorem predictedCovariance_apply [FloorRing K] (m : MathEnv K) (w : Fin 15 → K)
    (X : Matrix (Fin 5) (Fin 15) K) (x : Fin 5 → K) (r c : Fin 5) :
    predictedCovariance m w X x r c =
      ∑ i, w i * (stateDiff m X x i r * stateDiff m X x i c) := by
  unfold predictedCovariance
  rw [forSum_eq_sum, Matrix.sum_apply]
  rfl

/-- Away from the yaw component a state difference is the plain difference. -/
theorem stateDiff_apply_ne [FloorRing K] (m : MathEnv K) (X : Matrix (Fin 5) (Fin 15) K)
    (x : Fin 5 → K) (i : Fin 15) (r : Fin 5) (hr : r ≠ 3) :
    stateDiff m X x i r = X r i - x r := by
  unfold stateDiff
  simp [Function.update_noteq hr]

/-- The position-x row of the sigma points that `Prediction(1)` caches for
`skewState t`, when `sqrt(3) = c`, `cos 0 = 1` and `cos (± c t) = -1`. -/
theorem skew_X0 [FloorRing K] (m : MathEnv K) (t c : K)
    (hc : m.sqrt (3 - 7 + 7) = c) (hc0 : 0 ≤ c) (hc2 : c ≤ 2)
    (hcos0 : m.cos 0 = 1) (hcosp : m.cos (c * t) = -1) (hcosm : m.cos (-(c * t)) = -1)
    (hllt : m.llt (augmentedCovariance (skewState t)) = skewFactor t) :
    (Prediction m (skewState t) 1).Xsig_pred_ 0 0 = 2 ∧
      (Prediction m (skewState t) 1).Xsig_pred_ 0 1 = c - 2 ∧
      (Prediction m (skewState t) 1).Xsig_pred_ 0 2 = -2 ∧
      (Prediction m (skewState t) 1).Xsig_pred_ 0 3 = -2 - c ∧
      (Prediction m (skewState t) 1).Xsig_pred_ 0 4 = -2 ∧
      (Prediction m (skewState t) 1).Xsig_pred_ 0 5 = 2 ∧
      (Prediction m (skewState t) 1).Xsig_pred_ 0 6 = 2 + c ∧
      (Prediction m (skewState t) 1).Xsig_pred_ 0 7 = 2 ∧
      (Prediction m (skewState t) 1).Xsig_pred_ 0 8 = -c - 2 ∧
      (Prediction m (skewState t) 1).Xsig_pred_ 0 9 = -2 ∧
      (Prediction m (skewState t) 1).Xsig_pred_ 0 10 = -2 + c ∧
      (Prediction m (skewState t) 1).Xsig_pred_ 0 11 = -2 ∧
      (Prediction m (skewState t) 1).Xsig_pred_ 0 12 = 2 ∧
      (Prediction m (skewState t) 1).Xsig_pred_ 0 13 = 2 - c ∧
      (Prediction m (skewState t) 1).Xsig_pred_ 0 14 = 2 := by
  have e0 : augmentedMean (skewState t) 0 = 0 := rfl
  have e2 : augmentedMean (skewState t) 2 = 2 := rfl
  have e3 : augmentedMean (skewState t) 3 = 0 := rfl
  have e4 : augmentedMean (skewState t) 4 = 0 := rfl
  have e5 : augmentedMean (skewState t) 5 = 0 := rfl
  have hc3 : m.sqrt 3 = c := by
    rw [← hc]
    norm_num
  have hsmall : ¬ ((1e-3 : K) < |c * 2000⁻¹|) := by
    rw [abs_of_nonneg (by positivity)]
    norm_num
    linarith
  have hpos : ¬ ((1e-3 : K) < 0) := by norm_num
  rw [prediction_Xsig_pred, hllt]
  refine ⟨?_, ?_, ?_, ?_, ?_, ?_, ?_, ?_, ?_, ?_, ?_, ?_, ?_, ?_, ?_⟩ <;>
    simp +decide [predictSigmaPoint, augmentedSigmaPoints, skewFactor, e0, e2, e3, e4, e5, hc3,
      hcos0, hcosp, hcosm, hsmall, hpos] <;>
    ring

/-- The position-x mean and variance that `Prediction(1)` writes for
`skewState t`. -/
theorem skew_P00 [FloorRing K] (m : MathEnv K) (t c : K)
    (hc : m.sqrt (3 - 7 + 7) = c) (hc0 : 0 ≤ c) (hc2 : c ≤ 2) (hcc : c * c = 3)
    (hcos0 : m.cos 0 = 1) (hcosp : m.cos (c * t) = -1) (hcosm : m.cos (-(c * t)) = -1)
    (hllt : m.llt (augmentedCovariance (skewState t)) = skewFactor t) :
    (Prediction m (skewState t) 1).x_ 0 = -10 / 3 ∧
      (Prediction m (skewState t) 1).P_ 0 0 = -37 / 9 := by
  obtain ⟨h0, h1, h2, h3, h4, h5, h6, h7, h8, h9, h10, h11, h12, h13, h14⟩ :=
    skew_X0 m t c hc hc0 hc2 hcos0 hcosp hcosm hllt
  have hx : (Prediction m (skewState t) 1).x_ 0 = -10 / 3 := by
    rw [prediction_x, predictedMean_apply, sum_univ_fifteen, h0, h1, h2, h3, h4, h5, h6, h7,
      h8, h9, h10, h11, h12, h13, h14]
    simp +decide [setWeights]
    ring
  refine ⟨hx, ?_⟩
  rw [prediction_P, predictedCovariance_apply]
  simp only [stateDiff_apply_ne m _ _ _ 0 (by decide), hx]
  rw [sum_univ_fifteen, h0, h1, h2, h3, h4, h5, h6, h7, h8, h9, h10, h11, h12, h13, h14]
  simp +decide [setWeights]
  linear_combination hcc

/-- The covariance of `skewState` is symmetric. -/
theorem skewState_P_isSymm (t : K) : (skewState t).P_.IsSymm := by
  ext i j
  fin_cases i <;> fin_cases j <;> simp [skewState, construct, Matrix.vecHead, Matrix.vecTail]

/-- The quadratic form of the covariance of `skewState` is a sum of squares. -/
theorem skewState_P_quadratic (t : K) (u : Fin 5 → K) :
    u ⬝ᵥ ((skewState t).P_ *ᵥ u) =
      (u 0 + t * u 3) ^ 2 + (u 1 + t * u 3) ^ 2 + (u 2 + t * u 3) ^ 2 + (t * u 3) ^ 2 +
        (u 4 / 2000) ^ 2 := by
  simp [skewState, construct, Matrix.mulVec, dotProduct, Fin.sum_univ_five, Matrix.vecHead,
    Matrix.vecTail]
  ring

/-- The covariance of `skewState` is positive definite when `t` is not zero. -/
theorem skewState_P_posDef (t : K) (ht : t ≠ 0) (u : Fin 5 → K) (hu : u ≠ 0) :
    0 < u ⬝ᵥ ((skewState t).P_ *ᵥ u) := by
  rw [skewState_P_quadratic]
  by_contra hneg
  push_neg at hneg
  have a0 := sq_nonneg (u 0 + t * u 3)
  have a1 := sq_nonneg (u 1 + t * u 3)
  have a2 := sq_nonneg (u 2 + t * u 3)
  have a3 := sq_nonneg (t * u 3)
  have a4 := sq_nonneg (u 4 / 2000)
  have b3 : t * u 3 = 0 := by
    have : (t * u 3) ^ 2 = 0 := by linarith
    exact pow_eq_zero_iff (two_ne_zero) |>.mp this
  have b0 : u 0 + t * u 3 = 0 := by
    have : (u 0 + t * u 3) ^ 2 = 0 := by linarith
    exact pow_eq_zero_iff (two_ne_zero) |>.mp this
  have b1 : u 1 + t * u 3 = 0 := by
    have : (u 1 + t * u 3) ^ 2 = 0 := by linarith
    exact pow_eq_zero_iff (two_ne_zero) |>.mp this
  have b2 : u 2 + t * u 3 = 0 := by
    have : (u 2 + t * u 3) ^ 2 = 0 := by linarith
    exact pow_eq_zero_iff (two_ne_zero) |>.mp this
  have b4 : u 4 / 2000 = 0 := by
    have : (u 4 / 2000) ^ 2 = 0 := by linarith
    exact pow_eq_zero_iff (two_ne_zero) |>.mp this
  apply hu
  funext i
  have c3 : u 3 = 0 := (mul_eq_zero.mp b3).resolve_left ht
  have c4 : u 4 = 0 := by
    rcases div_eq_zero_iff.mp b4 with h | h
    · exact h
    · norm_num at h
  fin_cases i
  · show u 0 = 0
    linarith
  · show u 1 = 0
    linarith
  · show u 2 = 0
    linarith
  · exact c3
  · exact c4

/-- The matrix `skewFactor t` is a square root of the augmented covariance of
`skewState t`. -/
theorem skewFactor_mul_transpose (t : K) :
    skewFactor t * (skewFactor t)ᵀ = augmentedCovariance (skewState t) := by
  ext r c
  rw [Matrix.mul_apply]
  simp only [Matrix.transpose_apply, Fin.sum_univ_seven]
  fin_cases r <;> fin_cases c <;>
    simp +decide [skewFactor, augmentedCovariance, skewState, construct, Matrix.vecHead,
      Matrix.vecTail] <;>
    ring

/-- The matrix `skewFactor t` is lower triangular. -/
theorem skewFactor_lower (t : K) (r c : Fin 7) (h : r < c) : skewFactor t r c = 0 := by
  have h' : r.val < c.val := h
  unfold skewFactor
  rw [if_neg (by omega), if_neg (by omega)]

/-- The diagonal of `skewFactor t` is positive when `t` is. -/
theorem skewFactor_diag_pos (t : K) (ht : 0 < t) (r : Fin 7) : 0 < skewFactor t r r := by
  fin_cases r <;> simp +decide [skewFactor, ht]

/-- The quadratic form of an outer product is a square. -/
theorem quadratic_vecMulVec {k : Nat} (u d : Fin k → K) :
    u ⬝ᵥ (vecMulVec d d *ᵥ u) = (u ⬝ᵥ d) ^ 2 := by
  simp only [dotProduct, Matrix.mulVec, vecMulVec_apply, sq]
  rw [Finset.sum_mul_sum]
  refine Finset.sum_congr rfl (fun a _ => ?_)
  rw [Finset.mul_sum]
  refine Finset.sum_congr rfl (fun b _ => ?_)
  ring

/-- The quadratic form of a weighted sum of outer products is the weighted sum
of the squares. -/
theorem quadratic_forSum_outer {k n : Nat} (w : Fin n → K) (d : Fin n → Fin k → K)
    (u : Fin k → K) :
    u ⬝ᵥ ((forSum (fun i => w i • vecMulVec (d i) (d i))) *ᵥ u) =
      ∑ i, w i * (u ⬝ᵥ d i) ^ 2 := by
  rw [forSum_eq_sum]
  have lin : ∀ (S : Finset (Fin n)),
      u ⬝ᵥ ((∑ i in S, w i • vecMulVec (d i) (d i)) *ᵥ u) =
        ∑ i in S, w i * (u ⬝ᵥ d i) ^ 2 := by
    intro S
    induction S using Finset.induction_on with
    | empty => simp
    | insert hi ih =>
      rw [Finset.sum_insert hi, Finset.sum_insert hi, Matrix.add_mulVec, dotProduct_add, ih,
        Matrix.smul_mulVec_assoc, dotProduct_smul, quadratic_vecMulVec, smul_eq_mul]
  exact lin Finset.univ

/-- The quadratic form of the covariance written by `Prediction`: one sixth of
the squares of the fourteen outer deviations minus four thirds of the square of
the central one. -/
theorem prediction_P_quadratic [FloorRing K] (m : MathEnv K) (s : UKF K) (delta_t : K)
    (u : Fin 5 → K) :
    u ⬝ᵥ ((Prediction m s delta_t).P_ *ᵥ u) =
      1 / 6 * ∑ k : Fin 14,
          (u ⬝ᵥ stateDiff m (Prediction m s delta_t).Xsig_pred_
            (Prediction m s delta_t).x_ k.succ) ^ 2 -
        4 / 3 * (u ⬝ᵥ stateDiff m (Prediction m s delta_t).Xsig_pred_
          (Prediction m s delta_t).x_ 0) ^ 2 := by
  rw [prediction_P]
  unfold predictedCovariance
  rw [quadratic_forSum_outer, Fin.sum_univ_succ, Finset.mul_sum]
  have hw0 : setWeights (3 - 7 : K) 0 = -(4 / 3) := by
    simp [setWeights]
    norm_num
  have hws : ∀ k : Fin 14, setWeights (3 - 7 : K) k.succ = 1 / 6 := by
    intro k
    simp [setWeights]
    norm_num
  simp only [hw0, hws]
  ring

/-- The angle normalisation leaves zero as it is. -/
theorem normalizeAngle_zero [FloorRing K] (m : MathEnv K) : normalizeAngle m 0 = 0 := by
  have hpi := m.M_PI_pos
  unfold normalizeAngle
  rw [(wrapDown_spec m.M_PI m.M_PI_pos 0).2.1 hpi.le,
    (wrapUp_spec m.M_PI m.M_PI_pos 0).2.1 (by linarith)]

/-- A state difference that is zero before the normalisation is zero after it. -/
theorem stateDiff_eq_zero [FloorRing K] (m : MathEnv K) (X : Matrix (Fin 5) (Fin 15) K)
    (x : Fin 5 → K) (i : Fin 15) (h : ∀ r, X r i = x r) : stateDiff m X x i = 0 := by
  funext r
  unfold stateDiff
  by_cases hr : r = 3
  · subst hr
    simp [h, normalizeAngle_zero]
  · simp [Function.update_noteq hr, h]

/-- C5 fails as stated: over the reals, with `t = π / √3`, the state
`skewState t` has a symmetric positive-definite covariance whose augmentation
has the Cholesky factor `skewFactor t` (lower triangular, positive diagonal,
`L Lᵀ = P_aug`), and `Prediction(1)` with central weight `-4/3` writes a
covariance whose entry `(0, 0)` is `-37/9`, so it is not positive
semidefinite. -/
theorem prediction_covariance_not_psd :
    (skewState (Real.pi / Real.sqrt 3)).P_.IsSymm ∧
      (∀ u : Fin 5 → ℝ, u ≠ 0 →
        0 < u ⬝ᵥ ((skewState (Real.pi / Real.sqrt 3)).P_ *ᵥ u)) ∧
      (∀ r c : Fin 7, r < c → skewFactor (Real.pi / Real.sqrt 3) r c = 0) ∧
      (∀ r : Fin 7, 0 < skewFactor (Real.pi / Real.sqrt 3) r r) ∧
      skewFactor (Real.pi / Real.sqrt 3) * (skewFactor (Real.pi / Real.sqrt 3))ᵀ =
        augmentedCovariance (skewState (Real.pi / Real.sqrt 3)) ∧
      (Prediction
          (⟨Real.sqrt, Real.cos, Real.sin, fun y x => Complex.arg ⟨x, y⟩, Real.pi,
            Real.pi_pos, fun _ => skewFactor (Real.pi / Real.sqrt 3)⟩ : MathEnv ℝ)
          (skewState (Real.pi / Real.sqrt 3)) 1).P_ 0 0 = -37 / 9 ∧
      ¬ (∀ u : Fin 5 → ℝ, 0 ≤ u ⬝ᵥ
        ((Prediction
          (⟨Real.sqrt, Real.cos, Real.sin, fun y x => Complex.arg ⟨x, y⟩, Real.pi,
            Real.pi_pos, fun _ => skewFactor (Real.pi / Real.sqrt 3)⟩ : MathEnv ℝ)
          (skewState (Real.pi / Real.sqrt 3)) 1).P_ *ᵥ u)) := by
  have h3 : (0 : ℝ) < Real.sqrt 3 := Real.sqrt_pos.mpr (by norm_num)
  have ht : (0 : ℝ) < Real.pi / Real.sqrt 3 := div_pos Real.pi_pos h3
  have hct : Real.sqrt 3 * (Real.pi / Real.sqrt 3) = Real.pi := by
    field_simp
  have hP := (skew_P00
    (⟨Real.sqrt, Real.cos, Real.sin, fun y x => Complex.arg ⟨x, y⟩, Real.pi,
      Real.pi_pos, fun _ => skewFactor (Real.pi / Real.sqrt 3)⟩ : MathEnv ℝ)
    (Real.pi / Real.sqrt 3) (Real.sqrt 3)
    (by norm_num) h3.le
    (by
      rw [Real.sqrt_le_left (by norm_num : (0 : ℝ) ≤ 2)]
      norm_num)
    (Real.mul_self_sqrt (by norm_num))
    Real.cos_zero
    (by rw [hct]; exact Real.cos_pi)
    (by rw [hct]; exact (Real.cos_neg Real.pi).trans Real.cos_pi)
    rfl).2
  refine ⟨skewState_P_isSymm _, skewState_P_posDef _ ht.ne', skewFactor_lower _,
    skewFactor_diag_pos _ ht, skewFactor_mul_transpose _, hP, ?_⟩
  intro hall
  have h := hall (Pi.single 0 1)
  rw [Matrix.mulVec_single, single_dotProduct] at h
  simp only [one_mul, mul_one, Matrix.col_apply] at h
  rw [hP] at h
  norm_num at h

/-- C5 as amended: for every state and time step the covariance written by
`Prediction` is symmetric and its quadratic form at `u` is one sixth of the sum
of the squares `(u · d_i)²` over the fourteen outer sigma points minus four
thirds of `(u · d_0)²`, with `d_i` the heading-normalised deviation of sigma
point `i` from the new mean; it is positive semidefinite exactly when
`8 (u · d_0)² ≤ Σ (u · d_i)²` for every `u`, in particular when the central
deviation `d_0` is zero, which is the case for `delta_t = 0`. -/
theorem prediction_covariance_psd_iff [FloorRing K] (m : MathEnv K) (s : UKF K)
    (delta_t : K) :
    (Prediction m s delta_t).P_.IsSymm ∧
      (∀ u : Fin 5 → K,
        u ⬝ᵥ ((Prediction m s delta_t).P_ *ᵥ u) =
          1 / 6 * ∑ k : Fin 14,
              (u ⬝ᵥ stateDiff m (Prediction m s delta_t).Xsig_pred_
                (Prediction m s delta_t).x_ k.succ) ^ 2 -
            4 / 3 * (u ⬝ᵥ stateDiff m (Prediction m s delta_t).Xsig_pred_
              (Prediction m s delta_t).x_ 0) ^ 2) ∧
      ((∀ u : Fin 5 → K, 0 ≤ u ⬝ᵥ ((Prediction m s delta_t).P_ *ᵥ u)) ↔
        ∀ u : Fin 5 → K,
          8 * (u ⬝ᵥ stateDiff m (Prediction m s delta_t).Xsig_pred_
              (Prediction m s delta_t).x_ 0) ^ 2 ≤
            ∑ k : Fin 14,
              (u ⬝ᵥ stateDiff m (Prediction m s delta_t).Xsig_pred_
                (Prediction m s delta_t).x_ k.succ) ^ 2) ∧
      (stateDiff m (Prediction m s delta_t).Xsig_pred_ (Prediction m s delta_t).x_ 0 = 0 →
        ∀ u : Fin 5 → K, 0 ≤ u ⬝ᵥ ((Prediction m s delta_t).P_ *ᵥ u)) ∧
      (∀ u : Fin 5 → K, 0 ≤ u ⬝ᵥ ((Prediction m s 0).P_ *ᵥ u)) := by
  have hzero : ∀ (dt : K),
      stateDiff m (Prediction m s dt).Xsig_pred_ (Prediction m s dt).x_ 0 = 0 →
      ∀ u : Fin 5 → K, 0 ≤ u ⬝ᵥ ((Prediction m s dt).P_ *ᵥ u) := by
    intro dt h0 u
    rw [prediction_P_quadratic, h0]
    have : 0 ≤ ∑ k : Fin 14,
        (u ⬝ᵥ stateDiff m (Prediction m s dt).Xsig_pred_ (Prediction m s dt).x_ k.succ) ^ 2 :=
      Finset.sum_nonneg (fun k _ => sq_nonneg _)
    simp only [dotProduct_zero]
    nlinarith
  refine ⟨predictedCovariance_isSymm _ _ _ _, prediction_P_quadratic m s delta_t, ?_,
    hzero delta_t, ?_⟩
  · constructor
    · intro h u
      have := h u
      rw [prediction_P_quadratic] at this
      linarith
    · intro h u
      rw [prediction_P_quadratic]
      have := h u
      linarith
  · apply hzero 0
    apply stateDiff_eq_zero
    intro r
    rw [prediction_zero_x, prediction_zero_Xsig_pred]
    have hval : (Fin.castLE (by norm_num : 5 ≤ 7) r).val < 5 := r.isLt
    simp [augmentedSigmaPoints, augmentedMean, hval]

/-! ### C11: the angle normalisation is idempotent -/

/-- A value already in `[-π, π]` passes both loops unchanged. -/
theorem normalizeAngle_of_mem [FloorRing K] (m : MathEnv K) (d : K) (h1 : -m.M_PI ≤ d)
    (h2 : d ≤ m.M_PI) : normalizeAngle m d = d := by
  unfold normalizeAngle
  rw [(wrapDown_spec m.M_PI m.M_PI_pos d).2.1 h2, (wrapUp_spec m.M_PI m.M_PI_pos d).2.1 h1]

/-- The two loops leave a value between `-π` and `π`. -/
theorem normalizeAngle_mem [FloorRing K] (m : MathEnv K) (d : K) :
    -m.M_PI ≤ normalizeAngle m d ∧ normalizeAngle m d ≤ m.M_PI := by
  unfold normalizeAngle
  obtain ⟨hd1, hd2, hd3, -⟩ := wrapDown_spec m.M_PI m.M_PI_pos d
  obtain ⟨hu1, hu2, hu3, -⟩ :=
    wrapUp_spec m.M_PI m.M_PI_pos (wrapDown m.M_PI m.M_PI_pos d)
  refine ⟨hu1, ?_⟩
  rcases le_or_lt (-m.M_PI) (wrapDown m.M_PI m.M_PI_pos d) with hle | hlt
  · rw [hu2 hle]; exact hd1
  · exact (hu3 hlt).le

/-- C11: the angle normalisation is idempotent: for every `d`, putting the
result of the two loops (while `d > π` subtract `2π`; while `d < -π` add `2π`)
through them again returns it unchanged. -/
theorem normalizeAngle_idempotent [FloorRing K] (m : MathEnv K) (d : K) :
    normalizeAngle m (normalizeAngle m d) = normalizeAngle m d :=
  normalizeAngle_of_mem m _ (normalizeAngle_mem m d).1 (normalizeAngle_mem m d).2

/-! ### C13 - C15: the accuracy metric -/

/-- A fold that adds `g p` for every entry is the start value plus the sum. -/
theorem foldl_add_eq_sum {α β : Type} [AddCommMonoid β] (g : α → β) (l : List α) (a : β) :
    l.foldl (fun acc p => acc + g p) a = a + (l.map g).sum := by
  induction l generalizing a with
  | nil => simp
  | cons b t ih => simp [ih, add_assoc]

/-- The sum over the paired entries of two lists of equal length, as a sum over
the indices. -/
theorem sum_zipWith_eq_sum {α β : Type} [AddCommMonoid β] (φ : α → α → β) :
    ∀ (l₁ l₂ : List α) (h : l₁.length = l₂.length),
      (List.zipWith φ l₁ l₂).sum = ∑ i : Fin l₁.length, φ (l₁.get i) (l₂.get (i.cast h))
  | [], [], _ => by simp
  | [], _ :: _, h => by simp at h
  | _ :: _, [], h => by simp at h
  | a :: t₁, b :: t₂, h => by
    have h' : t₁.length = t₂.length := by simpa using h
    have ih := sum_zipWith_eq_sum φ t₁ t₂ h'
    simp only [List.zipWith_cons_cons, List.sum_cons, List.length_cons]
    rw [Fin.sum_univ_succ, ih]
    rfl

/-- The value of `CalculateRMSE` on its regular branch. -/
theorem calculateRMSE_regular (sqrt : K → K) (est gt : List (Fin 4 → K))
    (h : est.length = gt.length) (hne : est ≠ []) (k : Fin 4) :
    (CalculateRMSE sqrt est gt).1 k =
      sqrt ((List.zipWith (fun e g => (e k - g k) * (e k - g k)) est gt).sum /
        (est.length : K)) := by
  have hlen : est.length ≠ 0 := fun h0 => hne (List.length_eq_zero.mp h0)
  have hcond : ¬ (est.length ≠ gt.length ∨ est.length = 0) := by
    rintro (h1 | h1)
    · exact h1 h
    · exact hlen h1
  simp only [CalculateRMSE, if_neg hcond]
  congr 2
  rw [foldl_add_eq_sum (fun p : (Fin 4 → K) × (Fin 4 → K) => (p.1 - p.2) * (p.1 - p.2))]
  have hz : ∀ (l₁ l₂ : List (Fin 4 → K)),
      ((List.zip l₁ l₂).map
        (fun p : (Fin 4 → K) × (Fin 4 → K) => (p.1 - p.2) * (p.1 - p.2))).sum k =
        (List.zipWith (fun e g => (e k - g k) * (e k - g k)) l₁ l₂).sum := by
    intro l₁
    induction l₁ with
    | nil => intro l₂; simp
    | cons a t ih =>
      intro l₂
      cases l₂ with
      | nil => simp
      | cons b t₂ =>
        simp only [List.zip_cons_cons, List.map_cons, List.sum_cons, List.zipWith_cons_cons,
          Pi.add_apply, Pi.mul_apply, Pi.sub_apply, ih t₂]
  have h0 : (![0, 0, 0, 0] : Fin 4 → K) k = 0 := by fin_cases k <;> rfl
  rw [Pi.add_apply, hz, h0, zero_add]

/-- C13: for non-empty sequences `est` and `gt` of the same length `n`,
`CalculateRMSE(est, gt)` is the vector whose component `k` is
`sqrt((1/n) Σ_i (est[i][k] - gt[i][k])²)`, and nothing is written to `cout`. -/
theorem calculateRMSE_value (sqrt : K → K) (est gt : List (Fin 4 → K))
    (h : est.length = gt.length) (hne : est ≠ []) :
    (∀ k : Fin 4, (CalculateRMSE sqrt est gt).1 k =
        sqrt (1 / (est.length : K) *
          ∑ i : Fin est.length, (est.get i k - gt.get (i.cast h) k) ^ 2)) ∧
      (CalculateRMSE sqrt est gt).2 = [] := by
  constructor
  · intro k
    rw [calculateRMSE_regular sqrt est gt h hne k,
      sum_zipWith_eq_sum (fun e g => (e k - g k) * (e k - g k)) est gt h]
    congr 1
    rw [div_eq_mul_inv, mul_comm, one_div]
    congr 1
    exact Finset.sum_congr rfl (fun i _ => (sq _).symm)
  · have hlen : est.length ≠ 0 := fun h0 => hne (List.length_eq_zero.mp h0)
    have hcond : ¬ (est.length ≠ gt.length ∨ est.length = 0) := by
      rintro (h1 | h1)
      · exact h1 h
      · exact hlen h1
    simp only [CalculateRMSE, if_neg hcond]

/-- C13 on two estimates against two ground truths, over the reals: the first
component is `sqrt(((1 - 0)² + (3 - 3)²) / 2)`. -/
theorem calculateRMSE_value_witness :
    (CalculateRMSE Real.sqrt [![1, 2, 3, 4], ![3, 2, 1, 0]]
        [![0, 2, 3, 4], ![3, 2, 1, 2]]).1 0 = Real.sqrt (1 / 2) ∧
      (CalculateRMSE Real.sqrt [![1, 2, 3, 4], ![3, 2, 1, 0]]
        [![0, 2, 3, 4], ![3, 2, 1, 2]]).2 = [] := by
  have h := calculateRMSE_value Real.sqrt [![1, 2, 3, 4], ![3, 2, 1, 0]]
    [![0, 2, 3, 4], ![3, 2, 1, 2]] rfl (by simp)
  refine ⟨?_, h.2⟩
  rw [h.1 0]
  congr 1
  simp [Fin.sum_univ_succ]

/-- C14: `CalculateRMSE` takes its error branch (it writes its message to
`cout`) exactly when the two sequences differ in length or the estimation
sequence is empty, and in that branch it returns `[0, 0, 0, 0]`, the vector as
initialised: no residual is accumulated. -/
theorem calculateRMSE_error (sqrt : K → K) (est gt : List (Fin 4 → K)) :
    ((CalculateRMSE sqrt est gt).2 ≠ [] ↔ (est.length ≠ gt.length ∨ est.length = 0)) ∧
      ((est.length ≠ gt.length ∨ est.length = 0) →
        (CalculateRMSE sqrt est gt).1 = ![0, 0, 0, 0] ∧
          (CalculateRMSE sqrt est gt).2 =
            ["estimations vector is zero and size not equal to ground truth"]) := by
  by_cases hcond : est.length ≠ gt.length ∨ est.length = 0
  · have e : CalculateRMSE sqrt est gt =
        (![0, 0, 0, 0], ["estimations vector is zero and size not equal to ground truth"]) := by
      simp only [CalculateRMSE, if_pos hcond]
    rw [e]
    exact ⟨⟨fun _ => hcond, fun _ => List.cons_ne_nil _ _⟩, fun _ => ⟨rfl, rfl⟩⟩
  · have e : (CalculateRMSE sqrt est gt).2 = [] := by
      simp only [CalculateRMSE, if_neg hcond]
    rw [e]
    exact ⟨⟨fun h => absurd rfl h, fun h => absurd h hcond⟩, fun h => absurd h hcond⟩

/-- C15: with a square root that maps 0 to 0, `CalculateRMSE(xs, xs)` is the
zero vector for every non-empty `xs`; in particular
`CalculateRMSE([v], [v]) = [0, 0, 0, 0]` for every `v`. -/
theorem calculateRMSE_self (sqrt : K → K) (hsqrt : sqrt 0 = 0) (xs : List (Fin 4 → K))
    (hne : xs ≠ []) :
    (CalculateRMSE sqrt xs xs).1 = ![0, 0, 0, 0] ∧
      ∀ v : Fin 4 → K, (CalculateRMSE sqrt [v] [v]).1 = ![0, 0, 0, 0] := by
  have key : ∀ ys : List (Fin 4 → K), ys ≠ [] →
      (CalculateRMSE sqrt ys ys).1 = ![0, 0, 0, 0] := by
    intro ys hys
    funext k
    rw [calculateRMSE_regular sqrt ys ys rfl hys k]
    have hz : (List.zipWith (fun e g : Fin 4 → K => (e k - g k) * (e k - g k)) ys ys).sum = 0 := by
      rw [sum_zipWith_eq_sum _ ys ys rfl]
      exact Finset.sum_eq_zero (fun i _ => by simp)
    rw [hz, zero_div, hsqrt]
    fin_cases k <;> rfl
  exact ⟨key xs hne, fun v => key [v] (by simp)⟩

/-- C15 over the reals, with the real square root. -/
theorem calculateRMSE_self_witness :
    (CalculateRMSE Real.sqrt [![1, 2, 3, 4], ![5, 6, 7, 8]]
      [![1, 2, 3, 4], ![5, 6, 7, 8]]).1 = ![0, 0, 0, 0] :=
  (calculateRMSE_self Real.sqrt Real.sqrt_zero [![1, 2, 3, 4], ![5, 6, 7, 8]] (by simp)).1

/-! ### C16: the predict-update cycle -/

/-- C16: an initialized filter that receives a measurement of an enabled
modality with timestamp `ts` sets `time_us_` to `ts`, runs `Prediction` with
`dt = (ts - time_us_) / 1000000` and then exactly one update, `UpdateLidar`
for LASER and `UpdateRadar` for RADAR; nothing looks at the order of the
timestamps, and an earlier `ts` gives a negative `dt`. -/
theorem processMeasurement_cycle [FloorRing K] (m : MathEnv K) (s : UKF K)
    (meas_package : MeasurementPackage K) (hinit : s.is_initialized_ = true)
    (hen : (meas_package.sensor_type_ = SensorType.RADAR ∧ s.use_radar_ = true) ∨
      (meas_package.sensor_type_ = SensorType.LASER ∧ s.use_laser_ = true)) :
    (meas_package.sensor_type_ = SensorType.LASER →
        ProcessMeasurement m s meas_package =
          UpdateLidar
            (Prediction m { s with time_us_ := meas_package.timestamp_ }
              (((meas_package.timestamp_ - s.time_us_ : Int) : K) / 1000000))
            meas_package) ∧
      (meas_package.sensor_type_ = SensorType.RADAR →
        ProcessMeasurement m s meas_package =
          UpdateRadar m
            (Prediction m { s with time_us_ := meas_package.timestamp_ }
              (((meas_package.timestamp_ - s.time_us_ : Int) : K) / 1000000))
            meas_package) ∧
      (ProcessMeasurement m s meas_package).time_us_ = meas_package.timestamp_ ∧
      (meas_package.timestamp_ < s.time_us_ →
        (((meas_package.timestamp_ - s.time_us_ : Int) : K) / 1000000) < 0) := by
  have hlit : (1000000.0 : K) = 1000000 := by norm_num
  have hrun : ProcessMeasurement m s meas_package =
      (if meas_package.sensor_type_ = SensorType.LASER then
        UpdateLidar
          (Prediction m { s with time_us_ := meas_package.timestamp_ }
            (((meas_package.timestamp_ - s.time_us_ : Int) : K) / 1000000)) meas_package
      else if meas_package.sensor_type_ = SensorType.RADAR then
        UpdateRadar m
          (Prediction m { s with time_us_ := meas_package.timestamp_ }
            (((meas_package.timestamp_ - s.time_us_ : Int) : K) / 1000000)) meas_package
      else
        Prediction m { s with time_us_ := meas_package.timestamp_ }
          (((meas_package.timestamp_ - s.time_us_ : Int) : K) / 1000000)) := by
    simp only [ProcessMeasurement, if_pos hen, hinit, hlit]
    rfl
  refine ⟨fun hl => ?_, fun hr => ?_, ?_, fun hlt => ?_⟩
  · rw [hrun, if_pos hl]
  · rw [hrun, if_neg (by rw [hr]; decide), if_pos hr]
  · rw [hrun]
    cases hty : meas_package.sensor_type_ with
    | LASER => rfl
    | RADAR => rfl
  · have h1 : ((meas_package.timestamp_ - s.time_us_ : Int) : K) < 0 := by
      have : meas_package.timestamp_ - s.time_us_ < 0 := by omega
      exact_mod_cast this
    exact div_neg_of_neg_of_pos h1 (by norm_num)

/-- C16 on an initialized filter over the reals and a LASER measurement one
tenth of a second after the reference time. -/
theorem processMeasurement_cycle_witness :
    (ProcessMeasurement
        (⟨Real.sqrt, Real.cos, Real.sin, fun y x => Complex.arg ⟨x, y⟩, Real.pi, Real.pi_pos,
          fun A => A⟩ : MathEnv ℝ)
        { (construct 0 1 0 0 : UKF ℝ) with is_initialized_ := true }
        ⟨100000, SensorType.LASER, ![1, 2, 0]⟩).time_us_ = 100000 :=
  (processMeasurement_cycle
    (⟨Real.sqrt, Real.cos, Real.sin, fun y x => Complex.arg ⟨x, y⟩, Real.pi, Real.pi_pos,
      fun A => A⟩ : MathEnv ℝ)
    { (construct 0 1 0 0 : UKF ℝ) with is_initialized_ := true }
    ⟨100000, SensorType.LASER, ![1, 2, 0]⟩ rfl (Or.inr ⟨rfl, rfl⟩)).2.2.1

/-! ### C12: the two branches of the motion model -/

/-- The position components of the motion model are the curved or the straight
position, chosen by `|yawd| > 0.001`, plus the noise term. -/
theorem predictSigmaPoint_position (m : MathEnv K) (delta_t : K) (col : Fin 7 → K) :
    predictSigmaPoint m delta_t col 0 =
        (if |col 4| > 0.001 then
          (curvedPosition m (col 0) (col 1) (col 2) (col 3) (col 4) delta_t).1
        else (straightPosition m (col 0) (col 1) (col 2) (col 3) delta_t).1) +
          0.5 * col 5 * delta_t * delta_t * m.cos (col 3) ∧
      predictSigmaPoint m delta_t col 1 =
        (if |col 4| > 0.001 then
          (curvedPosition m (col 0) (col 1) (col 2) (col 3) (col 4) delta_t).2
        else (straightPosition m (col 0) (col 1) (col 2) (col 3) delta_t).2) +
          0.5 * col 5 * delta_t * delta_t * m.sin (col 3) :=
  ⟨rfl, rfl⟩

/-- The difference quotient of `sin (yaw + h dt)` at `h = 0`. -/
theorem tendsto_sin_quotient (yaw delta_t : ℝ) :
    Filter.Tendsto (fun h : ℝ => h⁻¹ * (Real.sin (yaw + h * delta_t) - Real.sin yaw))
      (nhdsWithin 0 {0}ᶜ) (nhds (Real.cos yaw * delta_t)) := by
  have hd : HasDerivAt (fun h : ℝ => Real.sin (yaw + h * delta_t))
      (Real.cos (yaw + 0 * delta_t) * (1 * delta_t)) 0 :=
    (((hasDerivAt_id (0 : ℝ)).mul_const delta_t).const_add yaw).sin
  have ht := hasDerivAt_iff_tendsto_slope.mp hd
  simp only [zero_mul, add_zero, one_mul] at ht
  refine ht.congr (fun h => ?_)
  simp [slope]

/-- The difference quotient of `cos (yaw + h dt)` at `h = 0`. -/
theorem tendsto_cos_quotient (yaw delta_t : ℝ) :
    Filter.Tendsto (fun h : ℝ => h⁻¹ * (Real.cos (yaw + h * delta_t) - Real.cos yaw))
      (nhdsWithin 0 {0}ᶜ) (nhds (-Real.sin yaw * delta_t)) := by
  have hd : HasDerivAt (fun h : ℝ => Real.cos (yaw + h * delta_t))
      (-Real.sin (yaw + 0 * delta_t) * (1 * delta_t)) 0 :=
    (((hasDerivAt_id (0 : ℝ)).mul_const delta_t).const_add yaw).cos
  have ht := hasDerivAt_iff_tendsto_slope.mp hd
  simp only [zero_mul, add_zero, one_mul] at ht
  refine ht.congr (fun h => ?_)
  simp [slope]

/-- C12: over the reals, with the real sine and cosine, the position of the
curved branch converges to the position of the straight branch as the yaw rate
tends to 0 through non-zero values, for all fixed `p_x`, `p_y`, `v`, `yaw` and
`delta_t`; the two branches are the ones `predictSigmaPoint` chooses between. -/
theorem ctrv_branches_agree (llt : Matrix (Fin 7) (Fin 7) ℝ → Matrix (Fin 7) (Fin 7) ℝ)
    (p_x p_y v yaw delta_t : ℝ) :
    Filter.Tendsto
        (fun yawd : ℝ =>
          (curvedPosition
            (⟨Real.sqrt, Real.cos, Real.sin, fun y x => Complex.arg ⟨x, y⟩, Real.pi,
              Real.pi_pos, llt⟩ : MathEnv ℝ) p_x p_y v yaw yawd delta_t).1)
        (nhdsWithin 0 {0}ᶜ)
        (nhds (straightPosition
          (⟨Real.sqrt, Real.cos, Real.sin, fun y x => Complex.arg ⟨x, y⟩, Real.pi,
            Real.pi_pos, llt⟩ : MathEnv ℝ) p_x p_y v yaw delta_t).1) ∧
      Filter.Tendsto
        (fun yawd : ℝ =>
          (curvedPosition
            (⟨Real.sqrt, Real.cos, Real.sin, fun y x => Complex.arg ⟨x, y⟩, Real.pi,
              Real.pi_pos, llt⟩ : MathEnv ℝ) p_x p_y v yaw yawd delta_t).2)
        (nhdsWithin 0 {0}ᶜ)
        (nhds (straightPosition
          (⟨Real.sqrt, Real.cos, Real.sin, fun y x => Complex.arg ⟨x, y⟩, Real.pi,
            Real.pi_pos, llt⟩ : MathEnv ℝ) p_x p_y v yaw delta_t).2) ∧
      ∀ (dt : ℝ) (col : Fin 7 → ℝ),
        predictSigmaPoint
            (⟨Real.sqrt, Real.cos, Real.sin, fun y x => Complex.arg ⟨x, y⟩, Real.pi,
              Real.pi_pos, llt⟩ : MathEnv ℝ) dt col 0 =
          (if |col 4| > 0.001 then
            (curvedPosition
              (⟨Real.sqrt, Real.cos, Real.sin, fun y x => Complex.arg ⟨x, y⟩, Real.pi,
                Real.pi_pos, llt⟩ : MathEnv ℝ)
              (col 0) (col 1) (col 2) (col 3) (col 4) dt).1
          else
            (straightPosition
              (⟨Real.sqrt, Real.cos, Real.sin, fun y x => Complex.arg ⟨x, y⟩, Real.pi,
                Real.pi_pos, llt⟩ : MathEnv ℝ)
              (col 0) (col 1) (col 2) (col 3) dt).1) +
            0.5 * col 5 * dt * dt * Real.cos (col 3) := by
  refine ⟨?_, ?_, fun dt col => (predictSigmaPoint_position _ dt col).1⟩
  · have h := ((tendsto_sin_quotient yaw delta_t).const_mul v).const_add p_x
    simp only [curvedPosition, straightPosition]
    have e : p_x + v * (Real.cos yaw * delta_t) = p_x + v * delta_t * Real.cos yaw := by ring
    rw [e] at h
    refine h.congr (fun yawd => ?_)
    ring
  · have h := ((tendsto_cos_quotient yaw delta_t).const_mul (-v)).const_add p_y
    simp only [curvedPosition, straightPosition]
    have e : p_y + -v * (-Real.sin yaw * delta_t) = p_y + v * delta_t * Real.sin yaw := by ring
    rw [e] at h
    refine h.congr (fun yawd => ?_)
    ring

/-! ### C20: `Prediction(0)` and the covariance -/

/-- A sum over the fifteen sigma points, split as the loop of lines 216-222
builds them: the centre, the seven points `i + 1` and the seven points
`i + 8`. -/
theorem sum_sigma_points {α : Type} [AddCommMonoid α] (f : Fin 15 → α) :
    ∑ i, f i = f 0 + ∑ k : Fin 7, f ⟨k.val + 1, by omega⟩ +
      ∑ k : Fin 7, f ⟨k.val + 8, by omega⟩ := by
  rw [sum_univ_fifteen, Fin.sum_univ_seven, Fin.sum_univ_seven]
  change f 0 + f 1 + f 2 + f 3 + f 4 + f 5 + f 6 + f 7 + f 8 + f 9 + f 10 + f 11 + f 12 +
    f 13 + f 14 = f 0 + (f 1 + f 2 + f 3 + f 4 + f 5 + f 6 + f 7) +
      (f 8 + f 9 + f 10 + f 11 + f 12 + f 13 + f 14)
  abel

/-- The first five entries of the augmented mean are the mean. -/
theorem augmentedMean_castLE (s : UKF K) (r : Fin 5) :
    augmentedMean s (Fin.castLE (by norm_num) r) = s.x_ r := by
  have : (Fin.castLE (by norm_num : 5 ≤ 7) r).val < 5 := r.isLt
  simp [augmentedMean, this]

/-- The top left block of the augmented covariance is the covariance. -/
theorem augmentedCovariance_castLE (s : UKF K) (r c : Fin 5) :
    augmentedCovariance s (Fin.castLE (by norm_num) r) (Fin.castLE (by norm_num) c) =
      s.P_ r c := by
  have h : (Fin.castLE (by norm_num : 5 ≤ 7) r).val < 5 ∧
      (Fin.castLE (by norm_num : 5 ≤ 7) c).val < 5 := ⟨r.isLt, c.isLt⟩
  simp [augmentedCovariance, h]

/-- With `delta_t = 0`, sigma point `k + 1` deviates from the mean by
`sqrt(lambda_ + n_aug_)` times column `k` of the factor. -/
theorem prediction_zero_diff_plus [FloorRing K] (m : MathEnv K) (s : UKF K) (k : Fin 7)
    (r : Fin 5) :
    (Prediction m s 0).Xsig_pred_ r ⟨k.val + 1, by omega⟩ - s.x_ r =
      m.sqrt 3 * m.llt (augmentedCovariance s) (Fin.castLE (by norm_num) r) k := by
  have h37 : (3 - 7 + 7 : K) = 3 := by norm_num
  have hk : k.val + 1 ≤ 7 := by omega
  rw [prediction_zero_Xsig_pred]
  simp [augmentedSigmaPoints, augmentedMean_castLE, hk, h37]

/-- With `delta_t = 0`, sigma point `k + 8` deviates from the mean by minus
`sqrt(lambda_ + n_aug_)` times column `k` of the factor. -/
theorem prediction_zero_diff_minus [FloorRing K] (m : MathEnv K) (s : UKF K) (k : Fin 7)
    (r : Fin 5) :
    (Prediction m s 0).Xsig_pred_ r ⟨k.val + 8, by omega⟩ - s.x_ r =
      -(m.sqrt 3 * m.llt (augmentedCovariance s) (Fin.castLE (by norm_num) r) k) := by
  have h37 : (3 - 7 + 7 : K) = 3 := by norm_num
  have hk : ¬ (k.val + 8 ≤ 7) := by omega
  rw [prediction_zero_Xsig_pred]
  simp [augmentedSigmaPoints, augmentedMean_castLE, hk, h37]

/-- A state difference whose yaw component lies in `[-π, π]` is the plain
difference. -/
theorem stateDiff_of_mem [FloorRing K] (m : MathEnv K) (X : Matrix (Fin 5) (Fin 15) K)
    (x : Fin 5 → K) (i : Fin 15) (h1 : -m.M_PI ≤ X 3 i - x 3) (h2 : X 3 i - x 3 ≤ m.M_PI) :
    stateDiff m X x i = fun r => X r i - x r := by
  unfold stateDiff
  simp only
  rw [normalizeAngle_of_mem m _ h1 h2]
  exact Function.update_eq_self 3 _

/-- With `delta_t = 0`, a factor with `L Lᵀ = P_aug` and yaw deviations
`√3 |L(3, i)|` of at most `π`, the weighted sum of outer products of lines
295-306 gives back the covariance on entry. -/
theorem prediction_zero_P [FloorRing K] (m : MathEnv K) (s : UKF K)
    (hL : m.llt (augmentedCovariance s) * (m.llt (augmentedCovariance s))ᵀ =
      augmentedCovariance s)
    (hc0 : 0 ≤ m.sqrt 3) (hcc : m.sqrt 3 * m.sqrt 3 = 3)
    (hyaw : ∀ i : Fin 7, m.sqrt 3 * |m.llt (augmentedCovariance s) 3 i| ≤ m.M_PI) :
    (Prediction m s 0).P_ = s.P_ := by
  have habs : ∀ i : Fin 7, |m.sqrt 3 * m.llt (augmentedCovariance s) 3 i| ≤ m.M_PI := by
    intro i
    rw [abs_mul, abs_of_nonneg hc0]
    exact hyaw i
  have hd0 : stateDiff m (Prediction m s 0).Xsig_pred_ s.x_ 0 = 0 := by
    apply stateDiff_eq_zero
    intro r
    rw [prediction_zero_Xsig_pred]
    simp [augmentedSigmaPoints, augmentedMean_castLE]
  have hdp : ∀ (k : Fin 7) (r : Fin 5),
      stateDiff m (Prediction m s 0).Xsig_pred_ s.x_ ⟨k.val + 1, by omega⟩ r =
        m.sqrt 3 * m.llt (augmentedCovariance s) (Fin.castLE (by norm_num) r) k := by
    intro k r
    have e3 := prediction_zero_diff_plus m s k 3
    have hb := abs_le.mp (habs k)
    rw [stateDiff_of_mem m _ _ _ (by rw [e3]; exact hb.1) (by rw [e3]; exact hb.2)]
    exact prediction_zero_diff_plus m s k r
  have hdm : ∀ (k : Fin 7) (r : Fin 5),
      stateDiff m (Prediction m s 0).Xsig_pred_ s.x_ ⟨k.val + 8, by omega⟩ r =
        -(m.sqrt 3 * m.llt (augmentedCovariance s) (Fin.castLE (by norm_num) r) k) := by
    intro k r
    have e3 := prediction_zero_diff_minus m s k 3
    have hb := abs_le.mp (habs k)
    rw [stateDiff_of_mem m _ _ _ (by rw [e3]; exact neg_le_neg hb.2)
      (by rw [e3]; exact neg_le.mpr hb.1)]
    exact prediction_zero_diff_minus m s k r
  have hwp : ∀ k : Fin 7, setWeights (3 - 7 : K) ⟨k.val + 1, by omega⟩ = 1 / 6 := by
    intro k
    simp [setWeights]
    norm_num
  have hwm : ∀ k : Fin 7, setWeights (3 - 7 : K) ⟨k.val + 8, by omega⟩ = 1 / 6 := by
    intro k
    simp [setWeights]
    norm_num
  ext r c
  have hP : ∑ k : Fin 7,
      m.llt (augmentedCovariance s) (Fin.castLE (by norm_num) r) k *
        m.llt (augmentedCovariance s) (Fin.castLE (by norm_num) c) k = s.P_ r c := by
    rw [← augmentedCovariance_castLE s r c]
    conv_rhs => rw [← hL]
    rw [Matrix.mul_apply]
    rfl
  rw [prediction_P, prediction_zero_x, predictedCovariance_apply, sum_sigma_points]
  simp only [hd0, hdp, hdm, hwp, hwm, Pi.zero_apply, mul_zero, zero_add]
  rw [← hP, ← Finset.sum_add_distrib]
  refine Finset.sum_congr rfl (fun k _ => ?_)
  linear_combination
    (m.llt (augmentedCovariance s) (Fin.castLE (by norm_num) r) k *
      m.llt (augmentedCovariance s) (Fin.castLE (by norm_num) c) k / 3) * hcc

/-- C20: `Prediction(0)` leaves the covariance unchanged, for every state
whose augmented covariance is `L Lᵀ` for the factor `L` that `llt` returns and
in which every yaw deviation `√3 |L(3, i)|` is at most `π`, so that no heading
difference is wrapped; `√3` is the value `sqrt(lambda_ + n_aug_)`, assumed
nonnegative with square 3. -/
theorem prediction_zero_dt_covariance [FloorRing K] (m : MathEnv K) (s : UKF K)
    (hL : m.llt (augmentedCovariance s) * (m.llt (augmentedCovariance s))ᵀ =
      augmentedCovariance s)
    (hc0 : 0 ≤ m.sqrt 3) (hcc : m.sqrt 3 * m.sqrt 3 = 3)
    (hyaw : ∀ i : Fin 7, m.sqrt 3 * |m.llt (augmentedCovariance s) 3 i| ≤ m.M_PI) :
    (Prediction m s 0).P_ = s.P_ :=
  prediction_zero_P m s hL hc0 hcc hyaw

/-- C20 on the state `skewState 1` over the reals, whose covariance is
positive definite and whose augmented covariance has the lower triangular
factor `skewFactor 1`: the yaw deviations are `√3` or 0. -/
theorem prediction_zero_dt_covariance_witness :
    (Prediction
        (⟨Real.sqrt, Real.cos, Real.sin, fun y x => Complex.arg ⟨x, y⟩, Real.pi, Real.pi_pos,
          fun _ => skewFactor 1⟩ : MathEnv ℝ)
        (skewState 1) 0).P_ = (skewState (1 : ℝ)).P_ :=
  prediction_zero_dt_covariance
    (⟨Real.sqrt, Real.cos, Real.sin, fun y x => Complex.arg ⟨x, y⟩, Real.pi, Real.pi_pos,
      fun _ => skewFactor 1⟩ : MathEnv ℝ)
    (skewState 1) (skewFactor_mul_transpose 1) (Real.sqrt_nonneg 3)
    (Real.mul_self_sqrt (by norm_num))
    (by
      intro i
      have h3 : Real.sqrt 3 ≤ 2 := by
        rw [Real.sqrt_le_left (by norm_num : (0 : ℝ) ≤ 2)]
        norm_num
      have h0 : (0 : ℝ) ≤ Real.sqrt 3 := Real.sqrt_nonneg 3
      have hpi : (3 : ℝ) < Real.pi := Real.pi_gt_three
      have hle : |skewFactor (1 : ℝ) 3 i| ≤ 1 := by
        fin_cases i <;> simp +decide [skewFactor]
      show Real.sqrt 3 * |skewFactor (1 : ℝ) 3 i| ≤ Real.pi
      nlinarith [abs_nonneg (skewFactor (1 : ℝ) 3 i)])

/-! ### C18: the lidar update and the trace of the covariance -/

/-- The innovation covariance of the lidar update is the covariance of the
sigma points in measurement space plus the noise matrix. -/
theorem lidarS_eq (s : UKF K) (Zsig : Matrix (Fin 2) (Fin 15) K) (z_pred : Fin 2 → K) :
    lidarS s Zsig z_pred = lidarSigmaCovariance s Zsig z_pred +
      !![s.std_laspx_ * s.std_laspx_, 0; 0, s.std_laspy_ * s.std_laspy_] := rfl

/-- The covariance written by `UpdateLidar`. -/
theorem updateLidar_P (s : UKF K) (meas_package : MeasurementPackage K) :
    (UpdateLidar s meas_package).P_ =
      s.P_ -
        lidarTc s (lidarSigmaPoints s.Xsig_pred_)
            (measurementMean s.weights_ (lidarSigmaPoints s.Xsig_pred_)) *
          inverse (lidarS s (lidarSigmaPoints s.Xsig_pred_)
            (measurementMean s.weights_ (lidarSigmaPoints s.Xsig_pred_))) *
        lidarS s (lidarSigmaPoints s.Xsig_pred_)
          (measurementMean s.weights_ (lidarSigmaPoints s.Xsig_pred_)) *
        (lidarTc s (lidarSigmaPoints s.Xsig_pred_)
            (measurementMean s.weights_ (lidarSigmaPoints s.Xsig_pred_)) *
          inverse (lidarS s (lidarSigmaPoints s.Xsig_pred_)
            (measurementMean s.weights_ (lidarSigmaPoints s.Xsig_pred_))))ᵀ := rfl

/-- A diagonal entry of `G S Gᵀ` is the quadratic form of `S` at a row of `G`. -/
theorem gain_quadratic_diag {k n : Nat} (G : Matrix (Fin n) (Fin k) K)
    (S : Matrix (Fin k) (Fin k) K) (r : Fin n) :
    (G * S * Gᵀ) r r = (G r) ⬝ᵥ (S *ᵥ (G r)) := by
  rw [Matrix.mul_assoc, Matrix.mul_apply]
  rfl

/-- A matrix with a positive quadratic form has a non-zero determinant. -/
theorem det_ne_zero_of_quadratic_pos {k : Nat} (S : Matrix (Fin k) (Fin k) K)
    (hS : ∀ u : Fin k → K, u ≠ 0 → 0 < u ⬝ᵥ (S *ᵥ u)) : S.det ≠ 0 := by
  intro hdet
  obtain ⟨v, hv, hSv⟩ := Matrix.exists_mulVec_eq_zero_iff.mpr hdet
  have := hS v hv
  rw [hSv, dotProduct_zero] at this
  exact lt_irrefl _ this

/-- The inverse, the adjugate over the determinant, is a left inverse when the
determinant is not zero. -/
theorem inverse_mul_self {k : Nat} (S : Matrix (Fin k) (Fin k) K) (h : S.det ≠ 0) :
    inverse S * S = 1 := by
  unfold inverse
  rw [Matrix.smul_mul, Matrix.adjugate_mul, smul_smul, inv_mul_cancel₀ h, one_smul]

/-- The inverse, the adjugate over the determinant, is a right inverse when the
determinant is not zero. -/
theorem self_mul_inverse {k : Nat} (S : Matrix (Fin k) (Fin k) K) (h : S.det ≠ 0) :
    S * inverse S = 1 := by
  unfold inverse
  rw [Matrix.mul_smul, Matrix.mul_adjugate, smul_smul, inv_mul_cancel₀ h, one_smul]

/-- Subtracting `G S Gᵀ` with `S` of positive quadratic form does not raise
the trace, and lowers it when `G` is not zero. -/
theorem trace_sub_gain {k : Nat} (P : Matrix (Fin 5) (Fin 5) K) (G : Matrix (Fin 5) (Fin k) K)
    (S : Matrix (Fin k) (Fin k) K) (hS : ∀ u : Fin k → K, u ≠ 0 → 0 < u ⬝ᵥ (S *ᵥ u)) :
    (P - G * S * Gᵀ).trace ≤ P.trace ∧ (G ≠ 0 → (P - G * S * Gᵀ).trace < P.trace) := by
  have hrow : ∀ r : Fin 5, 0 ≤ (G * S * Gᵀ) r r := by
    intro r
    rw [gain_quadratic_diag]
    by_cases h : G r = 0
    · rw [h, zero_dotProduct]
    · exact (hS _ h).le
  have htr : (P - G * S * Gᵀ).trace = P.trace - ∑ r, (G * S * Gᵀ) r r := by
    rw [Matrix.trace_sub]
    rfl
  refine ⟨?_, fun hG => ?_⟩
  · rw [htr]
    linarith [Finset.sum_nonneg (fun r (_ : r ∈ Finset.univ) => hrow r)]
  · have hex : ∃ r, G r ≠ 0 := by
      by_contra hno
      push_neg at hno
      exact hG (funext hno)
    obtain ⟨r, hr⟩ := hex
    have hpos : 0 < ∑ r, (G * S * Gᵀ) r r := by
      refine Finset.sum_pos' (fun r _ => hrow r) ⟨r, Finset.mem_univ r, ?_⟩
      rw [gain_quadratic_diag]
      exact hS _ hr
    rw [htr]
    linarith

/-- C18: for every state in which the innovation covariance `S` that
`UpdateLidar` computes has a positive quadratic form (it is symmetric by
construction), the trace of the covariance after `UpdateLidar` is at most the
trace before it, and strictly smaller when the cross correlation `Tc` is not
zero. -/
theorem updateLidar_trace (s : UKF K) (meas_package : MeasurementPackage K)
    (hS : ∀ u : Fin 2 → K, u ≠ 0 →
      0 < u ⬝ᵥ (lidarS s (lidarSigmaPoints s.Xsig_pred_)
        (measurementMean s.weights_ (lidarSigmaPoints s.Xsig_pred_)) *ᵥ u)) :
    (lidarS s (lidarSigmaPoints s.Xsig_pred_)
        (measurementMean s.weights_ (lidarSigmaPoints s.Xsig_pred_))).IsSymm ∧
      (UpdateLidar s meas_package).P_.trace ≤ s.P_.trace ∧
      (lidarTc s (lidarSigmaPoints s.Xsig_pred_)
          (measurementMean s.weights_ (lidarSigmaPoints s.Xsig_pred_)) ≠ 0 →
        (UpdateLidar s meas_package).P_.trace < s.P_.trace) := by
  have h := trace_sub_gain s.P_
    (lidarTc s (lidarSigmaPoints s.Xsig_pred_)
        (measurementMean s.weights_ (lidarSigmaPoints s.Xsig_pred_)) *
      inverse (lidarS s (lidarSigmaPoints s.Xsig_pred_)
        (measurementMean s.weights_ (lidarSigmaPoints s.Xsig_pred_)))) _ hS
  refine ⟨lidarS_isSymm _ _ _, ?_, fun hTc => ?_⟩
  · rw [updateLidar_P]
    exact h.1
  · rw [updateLidar_P]
    apply h.2
    intro hG
    apply hTc
    have hdet := det_ne_zero_of_quadratic_pos _ hS
    have e := congrArg (fun G => G * lidarS s (lidarSigmaPoints s.Xsig_pred_)
      (measurementMean s.weights_ (lidarSigmaPoints s.Xsig_pred_))) hG
    simp only [Matrix.mul_assoc, inverse_mul_self _ hdet, Matrix.mul_one, Matrix.zero_mul] at e
    exact e

/-- Entry `r` of the weighted mean in lidar measurement space is the weighted
mean of the position row `r` of the sigma points. -/
theorem measurementMean_lidar (w : Fin 15 → K) (X : Matrix (Fin 5) (Fin 15) K) (r : Fin 2) :
    measurementMean w (lidarSigmaPoints X) r = predictedMean w X (Fin.castLE (by norm_num) r) := by
  rw [predictedMean_apply]
  unfold measurementMean
  rw [forSum_eq_sum, Finset.sum_apply]
  refine Finset.sum_congr rfl (fun i _ => ?_)
  fin_cases r <;> rfl

/-- After `Prediction` the predicted lidar measurement is the position of the
mean. -/
theorem prediction_z_pred [FloorRing K] (m : MathEnv K) (s : UKF K) (delta_t : K) (r : Fin 2) :
    measurementMean (Prediction m s delta_t).weights_
        (lidarSigmaPoints (Prediction m s delta_t).Xsig_pred_) r =
      (Prediction m s delta_t).x_ (Fin.castLE (by norm_num) r) :=
  measurementMean_lidar _ _ r

/-- An entry of the covariance of the sigma points in lidar measurement space. -/
theorem lidarSigmaCovariance_apply (s : UKF K) (Zsig : Matrix (Fin 2) (Fin 15) K)
    (z_pred : Fin 2 → K) (r c : Fin 2) :
    lidarSigmaCovariance s Zsig z_pred r c =
      ∑ i, s.weights_ i * ((Zsig r i - z_pred r) * (Zsig c i - z_pred c)) := by
  unfold lidarSigmaCovariance
  rw [forSum_eq_sum, Matrix.sum_apply]
  rfl

/-- An entry of the cross correlation of the lidar update. -/
theorem lidarTc_apply (s : UKF K) (Zsig : Matrix (Fin 2) (Fin 15) K) (z_pred : Fin 2 → K)
    (r : Fin 5) (c : Fin 2) :
    lidarTc s Zsig z_pred r c =
      ∑ i, s.weights_ i * ((s.Xsig_pred_ r i - s.x_ r) * (Zsig c i - z_pred c)) := by
  unfold lidarTc
  rw [forSum_eq_sum, Matrix.sum_apply]
  rfl

omit [LinearOrderedField K] in
/-- A position entry of the lidar sigma points. -/
theorem lidarSigmaPoints_apply (X : Matrix (Fin 5) (Fin 15) K) (r : Fin 2) (i : Fin 15) :
    lidarSigmaPoints X r i = X (Fin.castLE (by norm_num) r) i := by
  fin_cases r <;> rfl

/-- After `Prediction` the position rows of the lidar cross correlation are
the covariance of the sigma points in measurement space. -/
theorem prediction_lidarTc_position [FloorRing K] (m : MathEnv K) (s : UKF K) (delta_t : K)
    (r c : Fin 2) :
    lidarTc (Prediction m s delta_t) (lidarSigmaPoints (Prediction m s delta_t).Xsig_pred_)
        (measurementMean (Prediction m s delta_t).weights_
          (lidarSigmaPoints (Prediction m s delta_t).Xsig_pred_))
        (Fin.castLE (by norm_num) r) c =
      lidarSigmaCovariance (Prediction m s delta_t)
        (lidarSigmaPoints (Prediction m s delta_t).Xsig_pred_)
        (measurementMean (Prediction m s delta_t).weights_
          (lidarSigmaPoints (Prediction m s delta_t).Xsig_pred_)) r c := by
  rw [lidarTc_apply, lidarSigmaCovariance_apply]
  simp only [prediction_z_pred, lidarSigmaPoints_apply]

/-- After `Prediction` the covariance of the sigma points in lidar measurement
space is the position block of the covariance. -/
theorem prediction_lidarSigmaCovariance [FloorRing K] (m : MathEnv K) (s : UKF K)
    (delta_t : K) (r c : Fin 2) :
    lidarSigmaCovariance (Prediction m s delta_t)
        (lidarSigmaPoints (Prediction m s delta_t).Xsig_pred_)
        (measurementMean (Prediction m s delta_t).weights_
          (lidarSigmaPoints (Prediction m s delta_t).Xsig_pred_)) r c =
      (Prediction m s delta_t).P_ (Fin.castLE (by norm_num) r) (Fin.castLE (by norm_num) c) := by
  have hr : (Fin.castLE (by norm_num : 2 ≤ 5) r) ≠ 3 := by
    fin_cases r <;> decide
  have hc : (Fin.castLE (by norm_num : 2 ≤ 5) c) ≠ 3 := by
    fin_cases c <;> decide
  rw [lidarSigmaCovariance_apply]
  conv_rhs => rw [prediction_P, predictedCovariance_apply]
  simp only [prediction_z_pred, lidarSigmaPoints_apply, stateDiff_apply_ne m _ _ _ _ hr,
    stateDiff_apply_ne m _ _ _ _ hc]
  rfl

/-- The yaw deviations of the sigma points of `skewState 1` with the factor
`skewFactor 1` are at most `π`. -/
theorem skewFactor_one_yaw (i : Fin 7) :
    Real.sqrt 3 * |skewFactor (1 : ℝ) 3 i| ≤ Real.pi := by
  have h3 : Real.sqrt 3 ≤ 2 := by
    rw [Real.sqrt_le_left (by norm_num : (0 : ℝ) ≤ 2)]
    norm_num
  have h0 : (0 : ℝ) ≤ Real.sqrt 3 := Real.sqrt_nonneg 3
  have hpi : (3 : ℝ) < Real.pi := Real.pi_gt_three
  have hle : |skewFactor (1 : ℝ) 3 i| ≤ 1 := by
    fin_cases i <;> simp +decide [skewFactor]
  nlinarith [abs_nonneg (skewFactor (1 : ℝ) 3 i)]

/-- Over the reals `Prediction(0)` gives `skewState 1` its covariance back. -/
theorem skew_prediction_zero_P :
    (Prediction
        (⟨Real.sqrt, Real.cos, Real.sin, fun y x => Complex.arg ⟨x, y⟩, Real.pi, Real.pi_pos,
          fun _ => skewFactor 1⟩ : MathEnv ℝ)
        (skewState 1) 0).P_ = (skewState (1 : ℝ)).P_ :=
  prediction_zero_P
    (⟨Real.sqrt, Real.cos, Real.sin, fun y x => Complex.arg ⟨x, y⟩, Real.pi, Real.pi_pos,
      fun _ => skewFactor 1⟩ : MathEnv ℝ)
    (skewState 1) (skewFactor_mul_transpose 1) (Real.sqrt_nonneg 3)
    (Real.mul_self_sqrt (by norm_num)) skewFactor_one_yaw

/-- The innovation covariance of the lidar update after `Prediction(0)` on
`skewState 1`: the identity plus the noise matrix. -/
theorem skew_lidarS :
    lidarS
        (Prediction
          (⟨Real.sqrt, Real.cos, Real.sin, fun y x => Complex.arg ⟨x, y⟩, Real.pi, Real.pi_pos,
            fun _ => skewFactor 1⟩ : MathEnv ℝ)
          (skewState 1) 0)
        (lidarSigmaPoints (Prediction
          (⟨Real.sqrt, Real.cos, Real.sin, fun y x => Complex.arg ⟨x, y⟩, Real.pi, Real.pi_pos,
            fun _ => skewFactor 1⟩ : MathEnv ℝ)
          (skewState 1) 0).Xsig_pred_)
        (measurementMean (Prediction
          (⟨Real.sqrt, Real.cos, Real.sin, fun y x => Complex.arg ⟨x, y⟩, Real.pi, Real.pi_pos,
            fun _ => skewFactor 1⟩ : MathEnv ℝ)
          (skewState 1) 0).weights_
          (lidarSigmaPoints (Prediction
            (⟨Real.sqrt, Real.cos, Real.sin, fun y x => Complex.arg ⟨x, y⟩, Real.pi,
              Real.pi_pos, fun _ => skewFactor 1⟩ : MathEnv ℝ)
            (skewState 1) 0).Xsig_pred_)) =
      (1 + 0.15 * 0.15 : ℝ) • (1 : Matrix (Fin 2) (Fin 2) ℝ) := by
  ext r c
  rw [lidarS_eq, Matrix.add_apply, prediction_lidarSigmaCovariance, skew_prediction_zero_P]
  have e00 : (skewState (1 : ℝ)).P_ 0 0 = 1 := by
    simp [skewState, construct, Matrix.vecHead, Matrix.vecTail]
  have e01 : (skewState (1 : ℝ)).P_ 0 1 = 0 := by
    simp [skewState, construct, Matrix.vecHead, Matrix.vecTail]
  have e10 : (skewState (1 : ℝ)).P_ 1 0 = 0 := by
    simp [skewState, construct, Matrix.vecHead, Matrix.vecTail]
  have e11 : (skewState (1 : ℝ)).P_ 1 1 = 1 := by
    simp [skewState, construct, Matrix.vecHead, Matrix.vecTail]
  fin_cases r <;> fin_cases c
  · change (skewState (1 : ℝ)).P_ 0 0 + _ = _
    rw [e00]
    simp [skewState, construct, Prediction]
  · change (skewState (1 : ℝ)).P_ 0 1 + _ = _
    rw [e01]
    simp [skewState, construct, Prediction]
  · change (skewState (1 : ℝ)).P_ 1 0 + _ = _
    rw [e10]
    simp [skewState, construct, Prediction]
  · change (skewState (1 : ℝ)).P_ 1 1 + _ = _
    rw [e11]
    simp [skewState, construct, Prediction]

/-- A positive multiple of the identity has a positive quadratic form. -/
theorem quadratic_smul_one_pos {k : Nat} (a : K) (ha : 0 < a) (u : Fin k → K) (hu : u ≠ 0) :
    0 < u ⬝ᵥ ((a • (1 : Matrix (Fin k) (Fin k) K)) *ᵥ u) := by
  rw [Matrix.smul_mulVec_assoc, Matrix.one_mulVec, dotProduct_smul, smul_eq_mul]
  have h0 : 0 ≤ u ⬝ᵥ u := Finset.sum_nonneg (fun i _ => mul_self_nonneg (u i))
  have hne : u ⬝ᵥ u ≠ 0 := fun h => hu (dotProduct_self_eq_zero.mp h)
  exact mul_pos ha (lt_of_le_of_ne h0 (Ne.symm hne))

/-- C18 after `Prediction(0)` on `skewState 1` over the reals: the innovation
covariance is `1.0225` times the identity, the cross correlation has the entry
`Tc(0, 0) = 1`, and the update lowers the trace. -/
theorem updateLidar_trace_witness :
    (UpdateLidar
        (Prediction
          (⟨Real.sqrt, Real.cos, Real.sin, fun y x => Complex.arg ⟨x, y⟩, Real.pi, Real.pi_pos,
            fun _ => skewFactor 1⟩ : MathEnv ℝ)
          (skewState 1) 0)
        ⟨0, SensorType.LASER, ![1, 1, 0]⟩).P_.trace <
      (Prediction
        (⟨Real.sqrt, Real.cos, Real.sin, fun y x => Complex.arg ⟨x, y⟩, Real.pi, Real.pi_pos,
          fun _ => skewFactor 1⟩ : MathEnv ℝ)
        (skewState 1) 0).P_.trace :=
  (updateLidar_trace
    (Prediction
      (⟨Real.sqrt, Real.cos, Real.sin, fun y x => Complex.arg ⟨x, y⟩, Real.pi, Real.pi_pos,
        fun _ => skewFactor 1⟩ : MathEnv ℝ)
      (skewState 1) 0)
    ⟨0, SensorType.LASER, ![1, 1, 0]⟩
    (by
      intro u hu
      rw [skew_lidarS]
      exact quadratic_smul_one_pos _ (by norm_num) u hu)).2.2
    (by
      intro h
      have h00 := congrFun (congrFun h 0) 0
      have e := prediction_lidarTc_position
        (⟨Real.sqrt, Real.cos, Real.sin, fun y x => Complex.arg ⟨x, y⟩, Real.pi, Real.pi_pos,
          fun _ => skewFactor 1⟩ : MathEnv ℝ) (skewState 1) 0 0 0
      rw [prediction_lidarSigmaCovariance, skew_prediction_zero_P] at e
      have e1 : (skewState (1 : ℝ)).P_ 0 0 = 1 := by
        simp [skewState, construct, Matrix.vecHead, Matrix.vecTail]
      rw [show (Fin.castLE (by norm_num : 2 ≤ 5) (0 : Fin 2)) = (0 : Fin 5) from rfl, e1] at e
      rw [e] at h00
      exact one_ne_zero h00)

/-! ### C17: the lidar update moves the mean toward the observation -/

/-- With `S = C + ρ I`, `ρ > 0` and `C` of positive quadratic form, the
residual left by the gain `C S⁻¹` is shorter than the residual. -/
theorem residual_contracts (C : Matrix (Fin 2) (Fin 2) K) (ρ : K) (hρ : 0 < ρ)
    (hC : ∀ u : Fin 2 → K, u ≠ 0 → 0 < u ⬝ᵥ (C *ᵥ u)) (e : Fin 2 → K) (he : e ≠ 0) :
    (e - (C * inverse (C + ρ • (1 : Matrix (Fin 2) (Fin 2) K))) *ᵥ e) ⬝ᵥ
        (e - (C * inverse (C + ρ • (1 : Matrix (Fin 2) (Fin 2) K))) *ᵥ e) < e ⬝ᵥ e := by
  have hS : ∀ u : Fin 2 → K, u ≠ 0 →
      0 < u ⬝ᵥ ((C + ρ • (1 : Matrix (Fin 2) (Fin 2) K)) *ᵥ u) := by
    intro u hu
    rw [Matrix.add_mulVec, dotProduct_add]
    exact add_pos (hC u hu) (quadratic_smul_one_pos ρ hρ u hu)
  have hSi := self_mul_inverse _ (det_ne_zero_of_quadratic_pos _ hS)
  have hSg : (C + ρ • (1 : Matrix (Fin 2) (Fin 2) K)) *ᵥ
      (inverse (C + ρ • (1 : Matrix (Fin 2) (Fin 2) K)) *ᵥ e) = e := by
    rw [Matrix.mulVec_mulVec, hSi, Matrix.one_mulVec]
  rw [← Matrix.mulVec_mulVec]
  generalize inverse (C + ρ • (1 : Matrix (Fin 2) (Fin 2) K)) *ᵥ e = g at hSg ⊢
  have hsum : C *ᵥ g + ρ • g = e := by
    rw [← hSg, Matrix.add_mulVec, Matrix.smul_mulVec_assoc, Matrix.one_mulVec]
  have hg : g ≠ 0 := by
    intro h0
    apply he
    rw [← hSg, h0, Matrix.mulVec_zero]
  have h1 : e - C *ᵥ g = ρ • g := by
    rw [← hsum]
    abel
  have hq : 0 < g ⬝ᵥ (C *ᵥ g) := hC g hg
  have hcc : 0 ≤ (C *ᵥ g) ⬝ᵥ (C *ᵥ g) :=
    Finset.sum_nonneg (fun i _ => mul_self_nonneg _)
  have hcomm : (C *ᵥ g) ⬝ᵥ g = g ⬝ᵥ (C *ᵥ g) := dotProduct_comm _ _
  rw [h1]
  conv_rhs => rw [← hsum]
  simp only [add_dotProduct, dotProduct_add, smul_dotProduct, dotProduct_smul, smul_eq_mul,
    hcomm]
  nlinarith [mul_pos hρ hq]

/-- The mean written by `UpdateLidar`. -/
theorem updateLidar_x (s : UKF K) (meas_package : MeasurementPackage K) :
    (UpdateLidar s meas_package).x_ =
      s.x_ +
        (lidarTc s (lidarSigmaPoints s.Xsig_pred_)
            (measurementMean s.weights_ (lidarSigmaPoints s.Xsig_pred_)) *
          inverse (lidarS s (lidarSigmaPoints s.Xsig_pred_)
            (measurementMean s.weights_ (lidarSigmaPoints s.Xsig_pred_)))) *ᵥ
          (![meas_package.raw_measurements_ 0, meas_package.raw_measurements_ 1] -
            measurementMean s.weights_ (lidarSigmaPoints s.Xsig_pred_)) := rfl

/-- A noise matrix with equal entries is a multiple of the identity. -/
theorem noise_eq_smul_one (a : K) : !![a, 0; 0, a] = a • (1 : Matrix (Fin 2) (Fin 2) K) := by
  ext i j
  fin_cases i <;> fin_cases j <;> simp

/-- After `Prediction`, when the two lidar noise deviations are equal, the
position rows of the gain `Tc S⁻¹` are `C S⁻¹` with `S = C + ρ I`, and the
position of the updated mean is the old one plus `C S⁻¹` times the residual. -/
theorem prediction_updateLidar_position [FloorRing K] (m : MathEnv K) (s : UKF K)
    (delta_t : K) (meas_package : MeasurementPackage K) (hstd : s.std_laspx_ = s.std_laspy_)
    (r : Fin 2) :
    (UpdateLidar (Prediction m s delta_t) meas_package).x_ (Fin.castLE (by norm_num) r) =
      (Prediction m s delta_t).x_ (Fin.castLE (by norm_num) r) +
        ((lidarSigmaCovariance (Prediction m s delta_t)
            (lidarSigmaPoints (Prediction m s delta_t).Xsig_pred_)
            (measurementMean (Prediction m s delta_t).weights_
              (lidarSigmaPoints (Prediction m s delta_t).Xsig_pred_)) *
          inverse (lidarSigmaCovariance (Prediction m s delta_t)
              (lidarSigmaPoints (Prediction m s delta_t).Xsig_pred_)
              (measurementMean (Prediction m s delta_t).weights_
                (lidarSigmaPoints (Prediction m s delta_t).Xsig_pred_)) +
            (s.std_laspx_ * s.std_laspx_) • (1 : Matrix (Fin 2) (Fin 2) K))) *ᵥ
          (![meas_package.raw_measurements_ 0, meas_package.raw_measurements_ 1] -
            measurementMean (Prediction m s delta_t).weights_
              (lidarSigmaPoints (Prediction m s delta_t).Xsig_pred_))) r := by
  have hS : lidarS (Prediction m s delta_t)
      (lidarSigmaPoints (Prediction m s delta_t).Xsig_pred_)
      (measurementMean (Prediction m s delta_t).weights_
        (lidarSigmaPoints (Prediction m s delta_t).Xsig_pred_)) =
      lidarSigmaCovariance (Prediction m s delta_t)
          (lidarSigmaPoints (Prediction m s delta_t).Xsig_pred_)
          (measurementMean (Prediction m s delta_t).weights_
            (lidarSigmaPoints (Prediction m s delta_t).Xsig_pred_)) +
        (s.std_laspx_ * s.std_laspx_) • (1 : Matrix (Fin 2) (Fin 2) K) := by
    rw [lidarS_eq, ← noise_eq_smul_one]
    show _ + !![s.std_laspx_ * s.std_laspx_, 0; 0, s.std_laspy_ * s.std_laspy_] = _
    rw [← hstd]
  rw [updateLidar_x, hS, Pi.add_apply]
  congr 1
  simp only [Matrix.mulVec, dotProduct, Matrix.mul_apply, prediction_lidarTc_position]

/-- C17: for every state produced by `Prediction` (with equal, non-zero lidar
noise deviations, as the constructor's `0.15` and `0.15`) in which the weighted
covariance `C` of the position rows of the propagated sigma points has a
positive quadratic form, and every lidar measurement `z` different from the
position of the predicted mean, the position rows of the gain are
`I - R S⁻¹` and the squared Euclidean distance between the position of the
mean and `z` is strictly smaller after `UpdateLidar` than before it. -/
theorem updateLidar_moves_toward [FloorRing K] (m : MathEnv K) (s : UKF K) (delta_t : K)
    (meas_package : MeasurementPackage K) (hstd : s.std_laspx_ = s.std_laspy_)
    (hstd0 : s.std_laspx_ ≠ 0)
    (hC : ∀ u : Fin 2 → K, u ≠ 0 →
      0 < u ⬝ᵥ (lidarSigmaCovariance (Prediction m s delta_t)
        (lidarSigmaPoints (Prediction m s delta_t).Xsig_pred_)
        (measurementMean (Prediction m s delta_t).weights_
          (lidarSigmaPoints (Prediction m s delta_t).Xsig_pred_)) *ᵥ u))
    (hz : meas_package.raw_measurements_ 0 ≠ (Prediction m s delta_t).x_ 0 ∨
      meas_package.raw_measurements_ 1 ≠ (Prediction m s delta_t).x_ 1) :
    (∀ r c : Fin 2,
        (lidarTc (Prediction m s delta_t) (lidarSigmaPoints (Prediction m s delta_t).Xsig_pred_)
            (measurementMean (Prediction m s delta_t).weights_
              (lidarSigmaPoints (Prediction m s delta_t).Xsig_pred_)) *
          inverse (lidarS (Prediction m s delta_t)
            (lidarSigmaPoints (Prediction m s delta_t).Xsig_pred_)
            (measurementMean (Prediction m s delta_t).weights_
              (lidarSigmaPoints (Prediction m s delta_t).Xsig_pred_))))
          (Fin.castLE (by norm_num) r) c =
        (1 - !![s.std_laspx_ * s.std_laspx_, 0; 0, s.std_laspy_ * s.std_laspy_] *
          inverse (lidarS (Prediction m s delta_t)
            (lidarSigmaPoints (Prediction m s delta_t).Xsig_pred_)
            (measurementMean (Prediction m s delta_t).weights_
              (lidarSigmaPoints (Prediction m s delta_t).Xsig_pred_)))) r c) ∧
      ((UpdateLidar (Prediction m s delta_t) meas_package).x_ 0 -
            meas_package.raw_measurements_ 0) ^ 2 +
          ((UpdateLidar (Prediction m s delta_t) meas_package).x_ 1 -
            meas_package.raw_measurements_ 1) ^ 2 <
        ((Prediction m s delta_t).x_ 0 - meas_package.raw_measurements_ 0) ^ 2 +
          ((Prediction m s delta_t).x_ 1 - meas_package.raw_measurements_ 1) ^ 2 := by
  have hρ : 0 < s.std_laspx_ * s.std_laspx_ := mul_self_pos.mpr hstd0
  have z0 := prediction_z_pred m s delta_t 0
  have z1 := prediction_z_pred m s delta_t 1
  change _ = (Prediction m s delta_t).x_ 0 at z0
  change _ = (Prediction m s delta_t).x_ 1 at z1
  constructor
  · intro r c
    have hS : ∀ u : Fin 2 → K, u ≠ 0 →
        0 < u ⬝ᵥ (lidarS (Prediction m s delta_t)
          (lidarSigmaPoints (Prediction m s delta_t).Xsig_pred_)
          (measurementMean (Prediction m s delta_t).weights_
            (lidarSigmaPoints (Prediction m s delta_t).Xsig_pred_)) *ᵥ u) := by
      intro u hu
      rw [lidarS_eq]
      show 0 < u ⬝ᵥ ((_ + !![s.std_laspx_ * s.std_laspx_, 0; 0,
        s.std_laspy_ * s.std_laspy_]) *ᵥ u)
      rw [← hstd, noise_eq_smul_one, Matrix.add_mulVec, dotProduct_add]
      exact add_pos (hC u hu) (quadratic_smul_one_pos _ hρ u hu)
    have hSi := self_mul_inverse _ (det_ne_zero_of_quadratic_pos _ hS)
    have hsub : (1 - !![s.std_laspx_ * s.std_laspx_, 0; 0, s.std_laspy_ * s.std_laspy_] *
        inverse (lidarS (Prediction m s delta_t)
          (lidarSigmaPoints (Prediction m s delta_t).Xsig_pred_)
          (measurementMean (Prediction m s delta_t).weights_
            (lidarSigmaPoints (Prediction m s delta_t).Xsig_pred_)))) =
        lidarSigmaCovariance (Prediction m s delta_t)
            (lidarSigmaPoints (Prediction m s delta_t).Xsig_pred_)
            (measurementMean (Prediction m s delta_t).weights_
              (lidarSigmaPoints (Prediction m s delta_t).Xsig_pred_)) *
          inverse (lidarS (Prediction m s delta_t)
            (lidarSigmaPoints (Prediction m s delta_t).Xsig_pred_)
            (measurementMean (Prediction m s delta_t).weights_
              (lidarSigmaPoints (Prediction m s delta_t).Xsig_pred_))) := by
      nth_rewrite 1 [← hSi]
      rw [← Matrix.sub_mul]
      congr 1
      rw [lidarS_eq]
      exact add_sub_cancel_right _ _
    rw [hsub]
    simp only [Matrix.mul_apply, prediction_lidarTc_position]
  · have he : ![meas_package.raw_measurements_ 0, meas_package.raw_measurements_ 1] -
        measurementMean (Prediction m s delta_t).weights_
          (lidarSigmaPoints (Prediction m s delta_t).Xsig_pred_) ≠ 0 := by
      intro h0
      have e0 := congrFun h0 0
      have e1 := congrFun h0 1
      simp only [Pi.sub_apply, Pi.zero_apply, Matrix.cons_val_zero, Matrix.cons_val_one,
        Matrix.head_cons, z0, z1, sub_eq_zero] at e0 e1
      rcases hz with h | h
      · exact h e0
      · exact h e1
    have key := residual_contracts _ _ hρ hC _ he
    have h0 := prediction_updateLidar_position m s delta_t meas_package hstd 0
    have h1 := prediction_updateLidar_position m s delta_t meas_package hstd 1
    change (UpdateLidar _ _).x_ 0 = (Prediction m s delta_t).x_ 0 + _ at h0
    change (UpdateLidar _ _).x_ 1 = (Prediction m s delta_t).x_ 1 + _ at h1
    rw [h0, h1]
    simp only [dotProduct, Fin.sum_univ_two, Pi.sub_apply, Matrix.cons_val_zero,
      Matrix.cons_val_one, Matrix.head_cons, z0, z1] at key
    nlinarith [key]

/-- The covariance of the sigma points in lidar measurement space after
`Prediction(0)` on `skewState 1`: the identity. -/
theorem skew_lidarSigmaCovariance :
    lidarSigmaCovariance
        (Prediction
          (⟨Real.sqrt, Real.cos, Real.sin, fun y x => Complex.arg ⟨x, y⟩, Real.pi, Real.pi_pos,
            fun _ => skewFactor 1⟩ : MathEnv ℝ)
          (skewState 1) 0)
        (lidarSigmaPoints (Prediction
          (⟨Real.sqrt, Real.cos, Real.sin, fun y x => Complex.arg ⟨x, y⟩, Real.pi, Real.pi_pos,
            fun _ => skewFactor 1⟩ : MathEnv ℝ)
          (skewState 1) 0).Xsig_pred_)
        (measurementMean (Prediction
          (⟨Real.sqrt, Real.cos, Real.sin, fun y x => Complex.arg ⟨x, y⟩, Real.pi, Real.pi_pos,
            fun _ => skewFactor 1⟩ : MathEnv ℝ)
          (skewState 1) 0).weights_
          (lidarSigmaPoints (Prediction
            (⟨Real.sqrt, Real.cos, Real.sin, fun y x => Complex.arg ⟨x, y⟩, Real.pi,
              Real.pi_pos, fun _ => skewFactor 1⟩ : MathEnv ℝ)
            (skewState 1) 0).Xsig_pred_)) =
      (1 : ℝ) • (1 : Matrix (Fin 2) (Fin 2) ℝ) := by
  ext r c
  rw [prediction_lidarSigmaCovariance, skew_prediction_zero_P]
  have e00 : (skewState (1 : ℝ)).P_ 0 0 = 1 := by
    simp [skewState, construct, Matrix.vecHead, Matrix.vecTail]
  have e01 : (skewState (1 : ℝ)).P_ 0 1 = 0 := by
    simp [skewState, construct, Matrix.vecHead, Matrix.vecTail]
  have e10 : (skewState (1 : ℝ)).P_ 1 0 = 0 := by
    simp [skewState, construct, Matrix.vecHead, Matrix.vecTail]
  have e11 : (skewState (1 : ℝ)).P_ 1 1 = 1 := by
    simp [skewState, construct, Matrix.vecHead, Matrix.vecTail]
  fin_cases r <;> fin_cases c
  · change (skewState (1 : ℝ)).P_ 0 0 = _
    rw [e00]
    simp
  · change (skewState (1 : ℝ)).P_ 0 1 = _
    rw [e01]
    simp
  · change (skewState (1 : ℝ)).P_ 1 0 = _
    rw [e10]
    simp
  · change (skewState (1 : ℝ)).P_ 1 1 = _
    rw [e11]
    simp

/-- C17 after `Prediction(0)` on `skewState 1` over the reals, whose mean is at
the origin, with the lidar measurement `(1, 1)`: the update brings the position
of the mean closer to the measurement. -/
theorem updateLidar_moves_toward_witness :
    ((UpdateLidar
            (Prediction
              (⟨Real.sqrt, Real.cos, Real.sin, fun y x => Complex.arg ⟨x, y⟩, Real.pi,
                Real.pi_pos, fun _ => skewFactor 1⟩ : MathEnv ℝ)
              (skewState 1) 0)
            ⟨0, SensorType.LASER, ![1, 1, 0]⟩).x_ 0 - 1) ^ 2 +
        ((UpdateLidar
            (Prediction
              (⟨Real.sqrt, Real.cos, Real.sin, fun y x => Complex.arg ⟨x, y⟩, Real.pi,
                Real.pi_pos, fun _ => skewFactor 1⟩ : MathEnv ℝ)
              (skewState 1) 0)
            ⟨0, SensorType.LASER, ![1, 1, 0]⟩).x_ 1 - 1) ^ 2 <
      ((Prediction
            (⟨Real.sqrt, Real.cos, Real.sin, fun y x => Complex.arg ⟨x, y⟩, Real.pi,
              Real.pi_pos, fun _ => skewFactor 1⟩ : MathEnv ℝ)
            (skewState 1) 0).x_ 0 - 1) ^ 2 +
        ((Prediction
            (⟨Real.sqrt, Real.cos, Real.sin, fun y x => Complex.arg ⟨x, y⟩, Real.pi,
              Real.pi_pos, fun _ => skewFactor 1⟩ : MathEnv ℝ)
            (skewState 1) 0).x_ 1 - 1) ^ 2 :=
  (updateLidar_moves_toward
    (⟨Real.sqrt, Real.cos, Real.sin, fun y x => Complex.arg ⟨x, y⟩, Real.pi, Real.pi_pos,
      fun _ => skewFactor 1⟩ : MathEnv ℝ)
    (skewState 1) 0 ⟨0, SensorType.LASER, ![1, 1, 0]⟩ rfl
    (by
      simp [skewState, construct]
      norm_num)
    (by
      intro u hu
      rw [skew_lidarSigmaCovariance]
      exact quadratic_smul_one_pos 1 one_pos u hu)
    (Or.inl (by
      rw [prediction_zero_x]
      simp [skewState, construct]))).2

/-! ### C19: the heading difference in the lidar cross correlation -/

/-- The angle normalisation subtracts one turn from a value in `(π, 3π]`. -/
theorem normalizeAngle_of_gt [FloorRing K] (m : MathEnv K) (d : K) (h1 : m.M_PI < d)
    (h2 : d ≤ 3 * m.M_PI) : normalizeAngle m d = d - 2 * m.M_PI := by
  have hpi := m.M_PI_pos
  unfold normalizeAngle
  rw [wrapDown, if_pos h1, (wrapDown_spec m.M_PI m.M_PI_pos _).2.1 (by linarith),
    (wrapUp_spec m.M_PI m.M_PI_pos _).2.1 (by linarith)]

/-- The angle normalisation adds one turn to a value in `[-3π, -π)`. -/
theorem normalizeAngle_of_lt [FloorRing K] (m : MathEnv K) (d : K) (h1 : d < -m.M_PI)
    (h2 : -(3 * m.M_PI) ≤ d) : normalizeAngle m d = d + 2 * m.M_PI := by
  have hpi := m.M_PI_pos
  unfold normalizeAngle
  rw [(wrapDown_spec m.M_PI m.M_PI_pos _).2.1 (by linarith), wrapUp, if_pos h1,
    (wrapUp_spec m.M_PI m.M_PI_pos _).2.1 (by linarith)]

/-- The yaw component of a state difference is the normalised difference. -/
theorem stateDiff_apply_three [FloorRing K] (m : MathEnv K) (X : Matrix (Fin 5) (Fin 15) K)
    (x : Fin 5 → K) (i : Fin 15) :
    stateDiff m X x i 3 = normalizeAngle m (X 3 i - x 3) := by
  unfold stateDiff
  simp

/-- An entry of the cross correlation computed from heading-wrapped state
differences. -/
theorem lidarTcWrapped_apply [FloorRing K] (m : MathEnv K) (s : UKF K)
    (Zsig : Matrix (Fin 2) (Fin 15) K) (z_pred : Fin 2 → K) (r : Fin 5) (c : Fin 2) :
    lidarTcWrapped m s Zsig z_pred r c =
      ∑ i, s.weights_ i * (stateDiff m s.Xsig_pred_ s.x_ i r * (Zsig c i - z_pred c)) := by
  unfold lidarTcWrapped
  rw [forSum_eq_sum, Matrix.sum_apply]
  rfl

/-- With `delta_t = 0` the central sigma point does not deviate from the
mean. -/
theorem prediction_zero_diff_center [FloorRing K] (m : MathEnv K) (s : UKF K) (r : Fin 5) :
    (Prediction m s 0).Xsig_pred_ r 0 - s.x_ r = 0 := by
  rw [prediction_zero_Xsig_pred]
  simp [augmentedSigmaPoints, augmentedMean_castLE]

/-- The weights of the outer sigma points after `Prediction`. -/
theorem prediction_weights_outer [FloorRing K] (m : MathEnv K) (s : UKF K) (delta_t : K)
    (k : Fin 7) :
    (Prediction m s delta_t).weights_ ⟨k.val + 1, by omega⟩ = 1 / 6 ∧
      (Prediction m s delta_t).weights_ ⟨k.val + 8, by omega⟩ = 1 / 6 := by
  constructor
  · show setWeights (3 - 7 : K) ⟨k.val + 1, by omega⟩ = 1 / 6
    simp [setWeights]
    norm_num
  · show setWeights (3 - 7 : K) ⟨k.val + 8, by omega⟩ = 1 / 6
    simp [setWeights]
    norm_num

/-- The entry `(3, 0)` of the lidar cross correlation after `Prediction(0)` on
`skewState t` with yaw deviations `√3 t = 4`, as `UpdateLidar` computes it and
as it is computed from heading-wrapped differences. -/
theorem skew_lidarTc_heading (t : ℝ) (ht : Real.sqrt 3 * t = 4) :
    lidarTc
        (Prediction
          (⟨Real.sqrt, Real.cos, Real.sin, fun y x => Complex.arg ⟨x, y⟩, Real.pi, Real.pi_pos,
            fun _ => skewFactor t⟩ : MathEnv ℝ)
          (skewState t) 0)
        (lidarSigmaPoints (Prediction
          (⟨Real.sqrt, Real.cos, Real.sin, fun y x => Complex.arg ⟨x, y⟩, Real.pi, Real.pi_pos,
            fun _ => skewFactor t⟩ : MathEnv ℝ)
          (skewState t) 0).Xsig_pred_)
        (measurementMean (Prediction
          (⟨Real.sqrt, Real.cos, Real.sin, fun y x => Complex.arg ⟨x, y⟩, Real.pi, Real.pi_pos,
            fun _ => skewFactor t⟩ : MathEnv ℝ)
          (skewState t) 0).weights_
          (lidarSigmaPoints (Prediction
            (⟨Real.sqrt, Real.cos, Real.sin, fun y x => Complex.arg ⟨x, y⟩, Real.pi,
              Real.pi_pos, fun _ => skewFactor t⟩ : MathEnv ℝ)
            (skewState t) 0).Xsig_pred_)) 3 0 = 4 * Real.sqrt 3 / 3 ∧
      lidarTcWrapped
        (⟨Real.sqrt, Real.cos, Real.sin, fun y x => Complex.arg ⟨x, y⟩, Real.pi, Real.pi_pos,
          fun _ => skewFactor t⟩ : MathEnv ℝ)
        (Prediction
          (⟨Real.sqrt, Real.cos, Real.sin, fun y x => Complex.arg ⟨x, y⟩, Real.pi, Real.pi_pos,
            fun _ => skewFactor t⟩ : MathEnv ℝ)
          (skewState t) 0)
        (lidarSigmaPoints (Prediction
          (⟨Real.sqrt, Real.cos, Real.sin, fun y x => Complex.arg ⟨x, y⟩, Real.pi, Real.pi_pos,
            fun _ => skewFactor t⟩ : MathEnv ℝ)
          (skewState t) 0).Xsig_pred_)
        (measurementMean (Prediction
          (⟨Real.sqrt, Real.cos, Real.sin, fun y x => Complex.arg ⟨x, y⟩, Real.pi, Real.pi_pos,
            fun _ => skewFactor t⟩ : MathEnv ℝ)
          (skewState t) 0).weights_
          (lidarSigmaPoints (Prediction
            (⟨Real.sqrt, Real.cos, Real.sin, fun y x => Complex.arg ⟨x, y⟩, Real.pi,
              Real.pi_pos, fun _ => skewFactor t⟩ : MathEnv ℝ)
            (skewState t) 0).Xsig_pred_)) 3 0 = (4 - 2 * Real.pi) * Real.sqrt 3 / 3 := by
  have hpi3 : (3 : ℝ) < Real.pi := Real.pi_gt_three
  have hpi4 : Real.pi < 3.15 := Real.pi_lt_d2
  have hN1 : normalizeAngle
      (⟨Real.sqrt, Real.cos, Real.sin, fun y x => Complex.arg ⟨x, y⟩, Real.pi, Real.pi_pos,
        fun _ => skewFactor t⟩ : MathEnv ℝ) 4 = 4 - 2 * Real.pi :=
    normalizeAngle_of_gt _ 4 (by show Real.pi < 4; linarith) (by show 4 ≤ 3 * Real.pi; linarith)
  have hN2 : normalizeAngle
      (⟨Real.sqrt, Real.cos, Real.sin, fun y x => Complex.arg ⟨x, y⟩, Real.pi, Real.pi_pos,
        fun _ => skewFactor t⟩ : MathEnv ℝ) (-4) = -4 + 2 * Real.pi :=
    normalizeAngle_of_lt _ (-4) (by show -4 < -Real.pi; linarith)
      (by show -(3 * Real.pi) ≤ -4; linarith)
  have hw1 := fun k => (prediction_weights_outer
    (⟨Real.sqrt, Real.cos, Real.sin, fun y x => Complex.arg ⟨x, y⟩, Real.pi, Real.pi_pos,
      fun _ => skewFactor t⟩ : MathEnv ℝ) (skewState t) 0 k).1
  have hw2 := fun k => (prediction_weights_outer
    (⟨Real.sqrt, Real.cos, Real.sin, fun y x => Complex.arg ⟨x, y⟩, Real.pi, Real.pi_pos,
      fun _ => skewFactor t⟩ : MathEnv ℝ) (skewState t) 0 k).2
  constructor
  · rw [lidarTc_apply, sum_sigma_points]
    simp only [prediction_z_pred, lidarSigmaPoints_apply, prediction_zero_x,
      prediction_zero_diff_plus, prediction_zero_diff_minus, prediction_zero_diff_center, hw1,
      hw2]
    rw [Fin.sum_univ_seven, Fin.sum_univ_seven]
    simp +decide [skewFactor, ht]
    ring
  · rw [lidarTcWrapped_apply, sum_sigma_points]
    simp only [stateDiff_apply_three, prediction_z_pred, lidarSigmaPoints_apply,
      prediction_zero_x, prediction_zero_diff_plus, prediction_zero_diff_minus,
      prediction_zero_diff_center, hw1, hw2]
    rw [Fin.sum_univ_seven, Fin.sum_univ_seven]
    simp +decide [skewFactor, ht, hN1, hN2]
    ring

/-- C19 does not hold of the code.  Over the reals take the filter with the
constructor's parameters, mean `(0, 0, 2, 0, 0)` and the positive-definite
covariance of `skewState (4 / √3)`, whose augmentation has the factor
`skewFactor (4 / √3)`, and run `Prediction(0)`: the sigma points 1 and 8 then
have the heading differences `4` and `-4`, outside `[-π, π]`.  The loop of
`UpdateLidar` uses them as they are and computes `Tc(3, 0) = 4 √3 / 3`; with
the differences wrapped to `4 - 2π` and `-4 + 2π`, as `Prediction` and
`UpdateRadar` wrap them, the entry is `(4 - 2π) √3 / 3`. -/
theorem updateLidar_heading_unwrapped :
    (∀ u : Fin 5 → ℝ, u ≠ 0 → 0 < u ⬝ᵥ ((skewState (4 / Real.sqrt 3)).P_ *ᵥ u)) ∧
      skewFactor (4 / Real.sqrt 3) * (skewFactor (4 / Real.sqrt 3))ᵀ =
        augmentedCovariance (skewState (4 / Real.sqrt 3)) ∧
      lidarTc
        (Prediction
          (⟨Real.sqrt, Real.cos, Real.sin, fun y x => Complex.arg ⟨x, y⟩, Real.pi, Real.pi_pos,
            fun _ => skewFactor (4 / Real.sqrt 3)⟩ : MathEnv ℝ)
          (skewState (4 / Real.sqrt 3)) 0)
        (lidarSigmaPoints (Prediction
            (⟨Real.sqrt, Real.cos, Real.sin, fun y x => Complex.arg ⟨x, y⟩, Real.pi, Real.pi_pos,
              fun _ => skewFactor (4 / Real.sqrt 3)⟩ : MathEnv ℝ)
            (skewState (4 / Real.sqrt 3)) 0).Xsig_pred_)
        (measurementMean (Prediction
            (⟨Real.sqrt, Real.cos, Real.sin, fun y x => Complex.arg ⟨x, y⟩, Real.pi, Real.pi_pos,
              fun _ => skewFactor (4 / Real.sqrt 3)⟩ : MathEnv ℝ)
            (skewState (4 / Real.sqrt 3)) 0).weights_
          (lidarSigmaPoints (Prediction
              (⟨Real.sqrt, Real.cos, Real.sin, fun y x => Complex.arg ⟨x, y⟩, Real.pi, Real.pi_pos,
                fun _ => skewFactor (4 / Real.sqrt 3)⟩ : MathEnv ℝ)
              (skewState (4 / Real.sqrt 3)) 0).Xsig_pred_)) 3 0 = 4 * Real.sqrt 3 / 3 ∧
      lidarTcWrapped
        (⟨Real.sqrt, Real.cos, Real.sin, fun y x => Complex.arg ⟨x, y⟩, Real.pi, Real.pi_pos,
          fun _ => skewFactor (4 / Real.sqrt 3)⟩ : MathEnv ℝ)
        (Prediction
          (⟨Real.sqrt, Real.cos, Real.sin, fun y x => Complex.arg ⟨x, y⟩, Real.pi, Real.pi_pos,
            fun _ => skewFactor (4 / Real.sqrt 3)⟩ : MathEnv ℝ)
          (skewState (4 / Real.sqrt 3)) 0)
        (lidarSigmaPoints (Prediction
            (⟨Real.sqrt, Real.cos, Real.sin, fun y x => Complex.arg ⟨x, y⟩, Real.pi, Real.pi_pos,
              fun _ => skewFactor (4 / Real.sqrt 3)⟩ : MathEnv ℝ)
            (skewState (4 / Real.sqrt 3)) 0).Xsig_pred_)
        (measurementMean (Prediction
            (⟨Real.sqrt, Real.cos, Real.sin, fun y x => Complex.arg ⟨x, y⟩, Real.pi, Real.pi_pos,
              fun _ => skewFactor (4 / Real.sqrt 3)⟩ : MathEnv ℝ)
            (skewState (4 / Real.sqrt 3)) 0).weights_
          (lidarSigmaPoints (Prediction
              (⟨Real.sqrt, Real.cos, Real.sin, fun y x => Complex.arg ⟨x, y⟩, Real.pi, Real.pi_pos,
                fun _ => skewFactor (4 / Real.sqrt 3)⟩ : MathEnv ℝ)
              (skewState (4 / Real.sqrt 3)) 0).Xsig_pred_)) 3 0 =
        (4 - 2 * Real.pi) * Real.sqrt 3 / 3 ∧
      lidarTc
        (Prediction
          (⟨Real.sqrt, Real.cos, Real.sin, fun y x => Complex.arg ⟨x, y⟩, Real.pi, Real.pi_pos,
            fun _ => skewFactor (4 / Real.sqrt 3)⟩ : MathEnv ℝ)
          (skewState (4 / Real.sqrt 3)) 0)
        (lidarSigmaPoints (Prediction
            (⟨Real.sqrt, Real.cos, Real.sin, fun y x => Complex.arg ⟨x, y⟩, Real.pi, Real.pi_pos,
              fun _ => skewFactor (4 / Real.sqrt 3)⟩ : MathEnv ℝ)
            (skewState (4 / Real.sqrt 3)) 0).Xsig_pred_)
        (measurementMean (Prediction
            (⟨Real.sqrt, Real.cos, Real.sin, fun y x => Complex.arg ⟨x, y⟩, Real.pi, Real.pi_pos,
              fun _ => skewFactor (4 / Real.sqrt 3)⟩ : MathEnv ℝ)
            (skewState (4 / Real.sqrt 3)) 0).weights_
          (lidarSigmaPoints (Prediction
              (⟨Real.sqrt, Real.cos, Real.sin, fun y x => Complex.arg ⟨x, y⟩, Real.pi, Real.pi_pos,
                fun _ => skewFactor (4 / Real.sqrt 3)⟩ : MathEnv ℝ)
              (skewState (4 / Real.sqrt 3)) 0).Xsig_pred_)) ≠
      lidarTcWrapped
        (⟨Real.sqrt, Real.cos, Real.sin, fun y x => Complex.arg ⟨x, y⟩, Real.pi, Real.pi_pos,
          fun _ => skewFactor (4 / Real.sqrt 3)⟩ : MathEnv ℝ)
        (Prediction
          (⟨Real.sqrt, Real.cos, Real.sin, fun y x => Complex.arg ⟨x, y⟩, Real.pi, Real.pi_pos,
            fun _ => skewFactor (4 / Real.sqrt 3)⟩ : MathEnv ℝ)
          (skewState (4 / Real.sqrt 3)) 0)
        (lidarSigmaPoints (Prediction
            (⟨Real.sqrt, Real.cos, Real.sin, fun y x => Complex.arg ⟨x, y⟩, Real.pi, Real.pi_pos,
              fun _ => skewFactor (4 / Real.sqrt 3)⟩ : MathEnv ℝ)
            (skewState (4 / Real.sqrt 3)) 0).Xsig_pred_)
        (measurementMean (Prediction
            (⟨Real.sqrt, Real.cos, Real.sin, fun y x => Complex.arg ⟨x, y⟩, Real.pi, Real.pi_pos,
              fun _ => skewFactor (4 / Real.sqrt 3)⟩ : MathEnv ℝ)
            (skewState (4 / Real.sqrt 3)) 0).weights_
          (lidarSigmaPoints (Prediction
              (⟨Real.sqrt, Real.cos, Real.sin, fun y x => Complex.arg ⟨x, y⟩, Real.pi, Real.pi_pos,
                fun _ => skewFactor (4 / Real.sqrt 3)⟩ : MathEnv ℝ)
              (skewState (4 / Real.sqrt 3)) 0).Xsig_pred_)) := by
  have h3 : (0 : ℝ) < Real.sqrt 3 := Real.sqrt_pos.mpr (by norm_num)
  have ht : Real.sqrt 3 * (4 / Real.sqrt 3) = 4 := by
    field_simp
  have htne : (4 / Real.sqrt 3) ≠ (0 : ℝ) := (div_pos (by norm_num) h3).ne'
  obtain ⟨h1, h2⟩ := skew_lidarTc_heading (4 / Real.sqrt 3) ht
  refine ⟨skewState_P_posDef _ htne, skewFactor_mul_transpose _, h1, h2, fun h => ?_⟩
  have e := congrFun (congrFun h 3) 0
  rw [h1, h2] at e
  have hpi := Real.pi_pos
  have : Real.pi * Real.sqrt 3 = 0 := by linarith
  rcases mul_eq_zero.mp this with h0 | h0
  · exact hpi.ne' h0
  · exact h3.ne' h0

end UKF
